import Mathlib

/-!
# check_openvz_mirror_with_clair: a shallow embedding of `main.go`

The program downloads the listing of an OpenVZ template mirror, keeps the
templates of the supported distributions, registers each of them as a layer
with a Clair scanner (`AddLayer`) and asks Clair for the vulnerabilities of
the layer (`GetLayerVuln`).

Go strings are modelled by Lean strings (sequences of Unicode code points),
Go `int` by `Int`, a possibly nil `error` by `Option GoError`, and the
network by an explicit `World`: a state type together with the answer the
HTTP library gives to each request.
-/

namespace ClairCheck

/-! ## Data model (`main.go`, lines 27-49) -/

/-- The Go struct `ClairAPI`: address, port and options of the scanner. -/
structure ClairAPI where
  Address : String
  Port : Int
  HttpsEnable : Bool
  MinimumPriority : String
  deriving DecidableEq, Repr

/-- The Go struct `AddLayoutRequestAPI`, the body of a register request. -/
structure AddLayoutRequestAPI where
  ID : String
  Path : String
  ParantID : String
  deriving DecidableEq, Repr

/-- The Go struct `VulnerabilityItem`, one record of the scanner's answer. -/
structure VulnerabilityItem where
  ID : String
  Link : String
  Priority : String
  Description : String
  deriving DecidableEq, Repr

/-- The Go struct `GetLayersVulnResponseAPI`. -/
structure GetLayersVulnResponseAPI where
  Vulnerabilities : List VulnerabilityItem
  deriving DecidableEq, Repr

/-! ## Library functions used by the program -/

/-- The function `strconv.Itoa`: the decimal text of an integer, with a
leading minus sign for a negative one. -/
def Itoa : Int → String
  | Int.ofNat n => Nat.repr n
  | Int.negSucc n => "-" ++ Nat.repr (n + 1)

/-- The function `strings.Split` for a separator of one character, on the
characters of the text: the segments between successive separators, one more
than there are separators. -/
def splitChars (sep : Char) : List Char → List (List Char)
  | [] => [[]]
  | c :: cs =>
    if c = sep then [] :: splitChars sep cs
    else
      match splitChars sep cs with
      | [] => [[c]]
      | seg :: segs => (c :: seg) :: segs

/-- The call `strings.Split(s, "\n")`. -/
def Split (s : String) : List String :=
  (splitChars '\n' s.data).map String.mk

/-! ## Listing clean-up (`main.go`, lines 129-137) -/

/-- The loop body of `CleanZeroValuesFromArray`: append the value when its
length is positive. -/
def cleanStep (cleanArray : List String) (value : String) : List String :=
  if value.length > 0 then cleanArray ++ [value] else cleanArray

/-- The function `CleanZeroValuesFromArray`: a loop over the array that
appends to an initially empty result. -/
def CleanZeroValuesFromArray (array : List String) : List String :=
  array.foldl cleanStep []

/-- The clean listing computed from a listing body: `strings.Split` on
newline as in `GetRemoteListing`, then `CleanZeroValuesFromArray` as in
`main`. -/
def cleanListing (body : String) : List String :=
  CleanZeroValuesFromArray (Split body)

/-- The predicate `unicode.IsSpace`: the code points with the Unicode
property White_Space. -/
def IsSpace (r : Char) : Bool :=
  let n := r.toNat
  (0x09 ≤ n && n ≤ 0x0D) || n == 0x20 || n == 0x85 || n == 0xA0 || n == 0x1680
    || (0x2000 ≤ n && n ≤ 0x200A) || n == 0x2028 || n == 0x2029 || n == 0x202F
    || n == 0x205F || n == 0x3000

/-- Whether `strings.TrimSpace` leaves nothing of the text: the text has zero
length after trimming exactly when every code point of it is white space. -/
def trimsToEmpty (s : String) : Bool :=
  s.data.all IsSpace

/-! ## The template filter (`main.go`, line 83): package `regexp` -/

/-- The function `unicode.SimpleFold` on the case orbits of the ASCII letters:
it steps to the next larger code point of the orbit, or wraps to the smallest.
The letters K and S have a third member in their orbit, the Kelvin sign
U+212A and the long s U+017F. Code points outside those orbits are left
unchanged here; the pattern of the filter holds ASCII letters only. -/
def SimpleFold (r : Char) : Char :=
  if r = 'K' then 'k'
  else if r = 'k' then Char.ofNat 0x212A
  else if r = Char.ofNat 0x212A then 'K'
  else if r = 'S' then 's'
  else if r = 's' then Char.ofNat 0x017F
  else if r = Char.ofNat 0x017F then 'S'
  else if r.isUpper then r.toLower
  else if r.isLower then r.toUpper
  else r

/-- The loop of `regexp/syntax.(*Inst).MatchRunePos` for a literal with the
fold-case flag: walk the orbit of the pattern rune `r0` from `r1` until it
comes back to `r0`, looking for the input rune `r`. -/
def foldLoop (r0 r : Char) : Nat → Char → Bool
  | 0, _ => false
  | n + 1, r1 =>
    if r1 = r0 then false
    else if r = r1 then true
    else foldLoop r0 r n (SimpleFold r1)

/-- Whether the input rune `r` matches the literal pattern rune `r0`
(`MatchRunePos` for a one-rune instruction). An orbit has at most four
members. -/
def matchRune (foldCase : Bool) (r0 r : Char) : Bool :=
  r == r0 || (foldCase && foldLoop r0 r 4 (SimpleFold r0))

/-- The syntax tree of a regular expression (`regexp/syntax.Regexp`), for the
operators the filter pattern uses. -/
inductive Regexp where
  | OpEmptyMatch
  | OpLiteral (runes : List Char) (foldCase : Bool)
  | OpCapture (sub : Regexp)
  | OpConcat (left right : Regexp)
  | OpAlternate (left right : Regexp)
  deriving Repr

/-- Match the literal `runes` at the start of the input: the rest of the
input after the literal, if it is there. -/
def matchLiteral (foldCase : Bool) : List Char → List Char → Option (List Char)
  | [], input => some input
  | _ :: _, [] => none
  | r0 :: runes, r :: input =>
    if matchRune foldCase r0 r then matchLiteral foldCase runes input else none

/-- All the ways the expression matches at the start of the input: the rest
of the input after each possible match. -/
def Regexp.matchAtStart : Regexp → List Char → List (List Char)
  | .OpEmptyMatch, input => [input]
  | .OpLiteral runes foldCase, input => (matchLiteral foldCase runes input).toList
  | .OpCapture sub, input => sub.matchAtStart input
  | .OpConcat left right, input =>
    (left.matchAtStart input).flatMap fun rest => right.matchAtStart rest
  | .OpAlternate left right, input =>
    left.matchAtStart input ++ right.matchAtStart input

/-- Whether the expression matches starting at some position of the input. -/
def Regexp.matchSomewhere (re : Regexp) : List Char → Bool
  | [] => !(re.matchAtStart []).isEmpty
  | c :: cs => !(re.matchAtStart (c :: cs)).isEmpty || re.matchSomewhere cs

/-- The method `(*Regexp).MatchString`: whether the text contains any match
of the expression (the search is not anchored). -/
def Regexp.MatchString (re : Regexp) (s : String) : Bool :=
  re.matchSomewhere s.data

/-- The expression compiled in `main`,
`regexp.MustCompile("(?i)(ubuntu|debian|centos)")`: one capture group around
an alternation of three literals, all under the fold-case flag `(?i)`. The
runes are kept as the pattern writes them; the parser stores the smallest
rune of each case orbit instead, and the orbit walked when matching is the
same. -/
def supportTemplates : Regexp :=
  .OpCapture
    (.OpAlternate (.OpLiteral "ubuntu".data true)
      (.OpAlternate (.OpLiteral "debian".data true) (.OpLiteral "centos".data true)))

/-- Two runes are equal up to case: the second is in the case orbit of the
first. -/
def equalFoldRune (a b : Char) : Bool :=
  b == a || b == SimpleFold a || b == SimpleFold (SimpleFold a)

/-- Two texts are equal up to case, rune by rune (`strings.EqualFold`). -/
def EqualFold : List Char → List Char → Bool
  | [], [] => true
  | a :: s, b :: t => equalFoldRune a b && EqualFold s t
  | _, _ => false

/-- The filter as the specification words it: the name contains, anywhere and
up to case, the given family identifier. -/
def ContainsFold (name family : String) : Prop :=
  ∃ before middle after : List Char,
    name.data = before ++ middle ++ after ∧ EqualFold family.data middle = true

/-! ## Package `encoding/json`: the grammar of JSON texts -/

/-- A JSON value, as the decoder of `encoding/json` sees it. A number keeps
its literal text. -/
inductive JSON where
  | null
  | bool (b : Bool)
  | number (literal : String)
  | string (s : String)
  | array (elems : List JSON)
  | object (members : List (String × JSON))
  deriving Repr

/-- The white space of a JSON text. -/
def isSpaceJSON (c : Char) : Bool :=
  c == ' ' || c == '\t' || c == '\r' || c == '\n'

/-- Drop the leading white space. -/
def skipSpace : List Char → List Char
  | [] => []
  | c :: cs => if isSpaceJSON c then skipSpace cs else c :: cs

/-- The value of a hexadecimal digit, in either case. -/
def hexDigit (c : Char) : Option Nat :=
  if '0' ≤ c ∧ c ≤ '9' then some (c.toNat - '0'.toNat)
  else if 'a' ≤ c ∧ c ≤ 'f' then some (c.toNat - 'a'.toNat + 10)
  else if 'A' ≤ c ∧ c ≤ 'F' then some (c.toNat - 'A'.toNat + 10)
  else none

/-- The function `getu4` of the decoder: the code unit written by a
backslash, the letter u and four hexadecimal digits at the start of the
input. -/
def getu4 : List Char → Option Nat
  | '\\' :: 'u' :: a :: b :: c :: d :: _ =>
    match hexDigit a, hexDigit b, hexDigit c, hexDigit d with
    | some x, some y, some z, some w => some (((x * 16 + y) * 16 + z) * 16 + w)
    | _, _, _, _ => none
  | _ => none

/-- The predicate `utf16.IsSurrogate`. -/
def isSurrogate (r : Nat) : Bool := 0xD800 ≤ r && r < 0xE000

/-- The function `utf16.DecodeRune`, with `none` for the replacement
character it returns on an invalid pair. -/
def decodeSurrogates (r1 r2 : Nat) : Option Char :=
  if 0xD800 ≤ r1 ∧ r1 < 0xDC00 ∧ 0xDC00 ≤ r2 ∧ r2 < 0xE000 then
    some (Char.ofNat ((r1 - 0xD800) * 0x400 + (r2 - 0xDC00) + 0x10000))
  else none

/-- The character written by a one-letter escape. -/
def unescape (e : Char) : Option Char :=
  if e = '"' then some '"'
  else if e = '\\' then some '\\'
  else if e = '/' then some '/'
  else if e = 'b' then some (Char.ofNat 8)
  else if e = 'f' then some (Char.ofNat 12)
  else if e = 'n' then some '\n'
  else if e = 'r' then some '\r'
  else if e = 't' then some '\t'
  else none

/-- The text of a string literal, read from just after its opening quote up
to its closing quote, with what follows the literal (the function `unquote`
of the decoder). A control character must be escaped; a lone surrogate
escape gives the replacement character U+FFFD. Each step uses up one unit of
fuel and at least one character. -/
def unquoteBody : Nat → List Char → Option (List Char × List Char)
  | 0, _ => none
  | _ + 1, [] => none
  | fuel + 1, c :: cs =>
    if c = '"' then some ([], cs)
    else if c = '\\' then
      match cs with
      | [] => none
      | e :: cs1 =>
        if e = 'u' then
          match getu4 (c :: cs) with
          | none => none
          | some rr =>
            let cs2 := cs1.drop 4
            if isSurrogate rr then
              match (getu4 cs2).bind (decodeSurrogates rr) with
              | some dec => (unquoteBody fuel (cs2.drop 6)).map fun p => (dec :: p.1, p.2)
              | none => (unquoteBody fuel cs2).map fun p => (Char.ofNat 0xFFFD :: p.1, p.2)
            else (unquoteBody fuel cs2).map fun p => (Char.ofNat rr :: p.1, p.2)
        else
          match unescape e with
          | none => none
          | some r => (unquoteBody fuel cs1).map fun p => (r :: p.1, p.2)
    else if c.toNat < 0x20 then none
    else (unquoteBody fuel cs).map fun p => (c :: p.1, p.2)

/-- A decimal digit. -/
def isDigit (c : Char) : Bool := '0' ≤ c && c ≤ '9'

/-- The leading decimal digits of the input, and the rest. -/
def takeDigits : List Char → List Char × List Char
  | [] => ([], [])
  | c :: cs =>
    if isDigit c then (c :: (takeDigits cs).1, (takeDigits cs).2) else ([], c :: cs)

/-- The integer part of a number: a single zero, or a non-zero digit followed
by digits. -/
def scanInt (cs : List Char) : Option (List Char × List Char) :=
  match cs with
  | [] => none
  | c :: rest =>
    if c = '0' then some (['0'], rest)
    else if isDigit c then some (c :: (takeDigits rest).1, (takeDigits rest).2)
    else none

/-- The optional fraction of a number: a point and at least one digit. -/
def scanFrac (cs : List Char) : Option (List Char × List Char) :=
  match cs with
  | [] => some ([], [])
  | p :: rest =>
    if p = '.' then
      match takeDigits rest with
      | ([], _) => none
      | (d :: ds, r) => some (p :: d :: ds, r)
    else some ([], cs)

/-- An optional sign at the start of the input, one of the two given
characters, and the rest. -/
def takeSign (plus minus : Char) : List Char → List Char × List Char
  | [] => ([], [])
  | g :: r => if g = plus ∨ g = minus then ([g], r) else ([], g :: r)

/-- The optional exponent of a number: the letter e, an optional sign and at
least one digit. -/
def scanExp (cs : List Char) : Option (List Char × List Char) :=
  match cs with
  | [] => some ([], [])
  | e :: rest =>
    if e = 'e' ∨ e = 'E' then
      match takeDigits (takeSign '+' '-' rest).2 with
      | ([], _) => none
      | (d :: ds, r) => some (e :: (takeSign '+' '-' rest).1 ++ d :: ds, r)
    else some ([], cs)

/-- A number literal at the start of the input, with the rest: an optional
minus sign, the integer part, an optional fraction and an optional
exponent. -/
def scanNumber (cs : List Char) : Option (List Char × List Char) :=
  match scanInt (takeSign '-' '-' cs).2 with
  | none => none
  | some (i, cs2) =>
    match scanFrac cs2 with
    | none => none
    | some (f, cs3) =>
      match scanExp cs3 with
      | none => none
      | some (e, cs4) => some ((takeSign '-' '-' cs).1 ++ i ++ f ++ e, cs4)

/-- Strip the given literal text from the start of the input. -/
def stripLiteral : List Char → List Char → Option (List Char)
  | [], cs => some cs
  | _ :: _, [] => none
  | l :: ls, c :: cs => if c = l then stripLiteral ls cs else none

mutual
/-- One JSON value at the start of the input (no leading white space), with
the rest of the input. -/
def parseValue : Nat → List Char → Option (JSON × List Char)
  | 0, _ => none
  | _ + 1, [] => none
  | fuel + 1, c :: cs =>
    if c = '"' then
      (unquoteBody (cs.length + 1) cs).map fun p => (JSON.string (String.mk p.1), p.2)
    else if c = '[' then
      match skipSpace cs with
      | [] => none
      | d :: ds =>
        if d = ']' then some (JSON.array [], ds)
        else (parseElements fuel (d :: ds)).map fun p => (JSON.array p.1, p.2)
    else if c = '{' then
      match skipSpace cs with
      | [] => none
      | d :: ds =>
        if d = '}' then some (JSON.object [], ds)
        else (parseMembers fuel (d :: ds)).map fun p => (JSON.object p.1, p.2)
    else if c = 't' then (stripLiteral "rue".data cs).map fun r => (JSON.bool true, r)
    else if c = 'f' then (stripLiteral "alse".data cs).map fun r => (JSON.bool false, r)
    else if c = 'n' then (stripLiteral "ull".data cs).map fun r => (JSON.null, r)
    else (scanNumber (c :: cs)).map fun p => (JSON.number (String.mk p.1), p.2)
/-- The elements of a non-empty array, up to and including its closing
bracket. -/
def parseElements : Nat → List Char → Option (List JSON × List Char)
  | 0, _ => none
  | fuel + 1, cs =>
    match parseValue fuel cs with
    | none => none
    | some (v, rest) =>
      match skipSpace rest with
      | [] => none
      | d :: ds =>
        if d = ']' then some ([v], ds)
        else if d = ',' then
          (parseElements fuel (skipSpace ds)).map fun p => (v :: p.1, p.2)
        else none
/-- The members of a non-empty object, up to and including its closing
brace. -/
def parseMembers : Nat → List Char → Option (List (String × JSON) × List Char)
  | 0, _ => none
  | _ + 1, [] => none
  | fuel + 1, c :: cs =>
    if c = '"' then
      match unquoteBody (cs.length + 1) cs with
      | none => none
      | some (key, rest) =>
        match skipSpace rest with
        | [] => none
        | d :: ds =>
          if d = ':' then
            match parseValue fuel (skipSpace ds) with
            | none => none
            | some (v, rest1) =>
              match skipSpace rest1 with
              | [] => none
              | e :: es =>
                if e = '}' then some ([(String.mk key, v)], es)
                else if e = ',' then
                  (parseMembers fuel (skipSpace es)).map fun p =>
                    ((String.mk key, v) :: p.1, p.2)
                else none
          else none
    else none
end

/-- A whole JSON text: one value between optional white space and nothing
else (what the validity check of `json.Unmarshal` accepts; its limit on the
depth of nesting is left out). The fuel is twice the length of the text plus
two: from there on the result does not depend on the fuel
(`parseValue_fuel`). -/
def parseJSON (s : String) : Option JSON :=
  let cs := skipSpace s.data
  match parseValue (2 * cs.length + 2) cs with
  | none => none
  | some (v, rest) => if (skipSpace rest).isEmpty then some v else none

/-! ## Package `encoding/json`: decoding into the structs of the program -/

/-- The errors of `json.Unmarshal`: a text that is not valid JSON, or a JSON
value that does not fit the Go type it is decoded into. -/
inductive JsonError where
  | SyntaxError
  | UnmarshalTypeError (Value : String) (Field : String)
  deriving DecidableEq, Repr

/-- The description of a JSON value in an `UnmarshalTypeError`. -/
def JSON.describe : JSON → String
  | .null => "null"
  | .bool _ => "bool"
  | .number _ => "number"
  | .string _ => "string"
  | .array _ => "array"
  | .object _ => "object"

/-- Whether an object key selects the struct field with the given JSON name:
the decoder takes the field whose name equals the key, exactly or up to
case. -/
def keyIs (name key : String) : Bool :=
  key == name || EqualFold name.data key.data

/-- Decode a JSON value into a Go string field holding `current`: a string
replaces it, `null` leaves it, anything else is a type error. -/
def decodeString (field : String) (current : String) : JSON → Except JsonError String
  | .string s => .ok s
  | .null => .ok current
  | v => .error (.UnmarshalTypeError v.describe field)

/-- Decode one member of an object into a `VulnerabilityItem`, by the JSON
names of its tags `ID`, `Link`, `Priority` and `Description`; a member with
another key is skipped. -/
def decodeItemMember (item : VulnerabilityItem) (member : String × JSON) :
    Except JsonError VulnerabilityItem :=
  if keyIs "ID" member.1 then
    (decodeString "ID" item.ID member.2).map fun x => { item with ID := x }
  else if keyIs "Link" member.1 then
    (decodeString "Link" item.Link member.2).map fun x => { item with Link := x }
  else if keyIs "Priority" member.1 then
    (decodeString "Priority" item.Priority member.2).map fun x => { item with Priority := x }
  else if keyIs "Description" member.1 then
    (decodeString "Description" item.Description member.2).map fun x =>
      { item with Description := x }
  else .ok item

/-- Decode the members of an object one after the other into the item. -/
def decodeItemMembers (item : VulnerabilityItem) :
    List (String × JSON) → Except JsonError VulnerabilityItem
  | [] => .ok item
  | member :: members =>
    match decodeItemMember item member with
    | .error e => .error e
    | .ok item1 => decodeItemMembers item1 members

/-- Decode a JSON value into a `VulnerabilityItem` holding `current`. -/
def decodeItem (current : VulnerabilityItem) : JSON → Except JsonError VulnerabilityItem
  | .object members => decodeItemMembers current members
  | .null => .ok current
  | v => .error (.UnmarshalTypeError v.describe "Vulnerabilities")

/-- The zero value of `VulnerabilityItem`. -/
def VulnerabilityItem.zero : VulnerabilityItem := ⟨"", "", "", ""⟩

/-- Decode the elements of a JSON array into a slice holding `current`: the
element of index i is decoded into the element of index i of the slice when
the slice has one, and into a zero value otherwise; the slice ends up with
the length of the array. -/
def decodeItems (current : List VulnerabilityItem) :
    List JSON → Except JsonError (List VulnerabilityItem)
  | [] => .ok []
  | v :: vs =>
    match decodeItem (current.headD VulnerabilityItem.zero) v with
    | .error e => .error e
    | .ok item =>
      match decodeItems current.tail vs with
      | .error e => .error e
      | .ok items => .ok (item :: items)

/-- Decode one member of the top-level object into the response struct, by
the JSON name of its tag `Vulnerabilities`: an array is decoded into the
slice, `null` sets the slice to nil, anything else is a type error. -/
def decodeResponseMember (result : GetLayersVulnResponseAPI) (member : String × JSON) :
    Except JsonError GetLayersVulnResponseAPI :=
  if keyIs "Vulnerabilities" member.1 then
    match member.2 with
    | .array elems =>
      (decodeItems result.Vulnerabilities elems).map fun items => ⟨items⟩
    | .null => .ok ⟨[]⟩
    | v => .error (.UnmarshalTypeError v.describe "Vulnerabilities")
  else .ok result

/-- Decode the members of the top-level object one after the other. -/
def decodeResponseMembers (result : GetLayersVulnResponseAPI) :
    List (String × JSON) → Except JsonError GetLayersVulnResponseAPI
  | [] => .ok result
  | member :: members =>
    match decodeResponseMember result member with
    | .error e => .error e
    | .ok result1 => decodeResponseMembers result1 members

/-- Decode a JSON value into a `GetLayersVulnResponseAPI` holding `result`. -/
def decodeResponse (result : GetLayersVulnResponseAPI) :
    JSON → Except JsonError GetLayersVulnResponseAPI
  | .object members => decodeResponseMembers result members
  | .null => .ok result
  | v => .error (.UnmarshalTypeError v.describe "")

/-- The call `json.Unmarshal(body, &result)` for a `result` of type
`GetLayersVulnResponseAPI`: the text is checked to be valid JSON, then
decoded into the struct. The struct returned is meaningful on success only;
the program does not look at it after an error. -/
def Unmarshal (data : String) (result : GetLayersVulnResponseAPI) :
    Except JsonError GetLayersVulnResponseAPI :=
  match parseJSON data with
  | none => .error .SyntaxError
  | some v => decodeResponse result v

/-! ## Package `encoding/json`: encoding -/

/-- The lower-case hexadecimal digit of a value below sixteen. -/
def hexChar (n : Nat) : Char :=
  if n < 10 then Char.ofNat ('0'.toNat + n) else Char.ofNat ('a'.toNat + (n - 10))

/-- How the encoder writes one character of a string: quote, backslash and
control characters are escaped, and so are the characters `<`, `>`, `&`,
U+2028 and U+2029, as `json.Marshal` escapes them for HTML. -/
def appendRune (c : Char) : List Char :=
  if c = '\\' ∨ c = '"' then ['\\', c]
  else if c = Char.ofNat 8 then ['\\', 'b']
  else if c = Char.ofNat 12 then ['\\', 'f']
  else if c = '\n' then ['\\', 'n']
  else if c = '\r' then ['\\', 'r']
  else if c = '\t' then ['\\', 't']
  else if c.toNat < 0x20 ∨ c = '<' ∨ c = '>' ∨ c = '&' then
    ['\\', 'u', '0', '0', hexChar (c.toNat / 16), hexChar (c.toNat % 16)]
  else if c = Char.ofNat 0x2028 ∨ c = Char.ofNat 0x2029 then
    ['\\', 'u', '2', '0', '2', hexChar (c.toNat % 16)]
  else [c]

/-- The characters of a string between the quotes of its JSON literal. -/
def escapeChars : List Char → List Char
  | [] => []
  | c :: cs => appendRune c ++ escapeChars cs

/-- The JSON literal of a string, as `json.Marshal` writes it. -/
def quoteChars (s : String) : List Char :=
  '"' :: (escapeChars s.data ++ ['"'])

/-- One member of a JSON object whose value is a string: the key, a colon
and the value. -/
def renderMember (key value : String) : List Char :=
  quoteChars key ++ ':' :: quoteChars value

/-- The call `json.Marshal(v)` for `v` of type `AddLayoutRequestAPI`: the
three fields under the names of their tags, in the order of the struct.
Encoding a struct of strings cannot fail, so there is no error result. -/
def Marshal (v : AddLayoutRequestAPI) : String :=
  String.mk ('{' :: renderMember "ID" v.ID ++ ',' :: renderMember "Path" v.Path
    ++ ',' :: renderMember "ParantID" v.ParantID ++ ['}'])

/-- The JSON object with exactly the fields `ID`, `Path` and `ParantID` of a
register request. -/
def AddLayoutRequestAPI.toJSON (v : AddLayoutRequestAPI) : JSON :=
  .object [("ID", .string v.ID), ("Path", .string v.Path), ("ParantID", .string v.ParantID)]

/-- The JSON object that encodes one vulnerability record with the fields
`ID`, `Link`, `Priority` and `Description`. -/
def VulnerabilityItem.toJSON (item : VulnerabilityItem) : JSON :=
  .object [("ID", .string item.ID), ("Link", .string item.Link),
    ("Priority", .string item.Priority), ("Description", .string item.Description)]

/-- The JSON object whose member `Vulnerabilities` is the array that encodes
the given records, in order. -/
def responseJSON (records : List VulnerabilityItem) : JSON :=
  .object [("Vulnerabilities", .array (records.map VulnerabilityItem.toJSON))]

/-- The compact JSON text of one vulnerability record. -/
def renderItem (item : VulnerabilityItem) : List Char :=
  '{' :: renderMember "ID" item.ID ++ ',' :: renderMember "Link" item.Link
    ++ ',' :: renderMember "Priority" item.Priority
    ++ ',' :: renderMember "Description" item.Description ++ ['}']

/-- The elements of a JSON array of records, separated by commas. -/
def renderItems : List VulnerabilityItem → List Char
  | [] => []
  | [item] => renderItem item
  | item :: item1 :: items => renderItem item ++ ',' :: renderItems (item1 :: items)

/-- The compact JSON text of `responseJSON records`, the body `json.Marshal`
writes for a response struct holding the records. -/
def renderResponse (records : List VulnerabilityItem) : String :=
  String.mk ('{' :: quoteChars "Vulnerabilities" ++ ':' :: '[' :: renderItems records
    ++ [']', '}'])

/-! ## Package `net/http`: requests, responses and the network -/

/-- What the program sets in an `http.Request`. -/
structure Request where
  Method : String
  URL : String
  Header : List (String × String)
  Body : Option String
  deriving DecidableEq, Repr

/-- What the program reads of an `http.Response`: the status code, and what
`ioutil.ReadAll` returns for the body, the text read and a possible error. -/
structure Response where
  StatusCode : Int
  Body : String
  ReadErr : Option String
  deriving DecidableEq, Repr

/-- A Go `error` value, by the call that made it. -/
inductive GoError where
  | errorString (text : String)
  | newRequest (msg : String)
  | clientDo (msg : String)
  | readAll (msg : String)
  | json (e : JsonError)
  deriving DecidableEq, Repr

/-- The method `Error()` of an error: the text given to `errors.New`, the
message of a library error, and for an error of `json.Unmarshal` a short
description in place of the message of the library. -/
def GoError.Error : GoError → String
  | .errorString text => text
  | .newRequest msg => msg
  | .clientDo msg => msg
  | .readAll msg => msg
  | .json .SyntaxError => "invalid character"
  | .json (.UnmarshalTypeError value field) =>
    "json: cannot unmarshal " ++ value ++ " into Go struct field " ++ field

/-- The behaviour of the HTTP library and of the servers behind it, over a
state `σ` of the outside world: which pairs of method and URL
`http.NewRequest` refuses (with the message of its error), and what
`(*http.Client).Do` returns for a request in a state, together with the
next state. -/
structure World (σ : Type) where
  NewRequestErr : String → String → Option String
  Do : σ → Request → Except String Response × σ

variable {σ : Type}

/-- The call `http.NewRequest(method, url, body)`. -/
def NewRequest (w : World σ) (method url : String) (body : Option String) :
    Except GoError Request :=
  match w.NewRequestErr method url with
  | some msg => .error (.newRequest msg)
  | none => .ok { Method := method, URL := url, Header := [], Body := body }

/-- The call `request.Header.Set(key, value)`. -/
def Request.HeaderSet (request : Request) (key value : String) : Request :=
  { request with Header := (key, value) :: request.Header.filter fun h => h.1 != key }

/-- The call `client.Do(request)`. -/
def clientDo (w : World σ) (request : Request) (s : σ) : Except GoError Response × σ :=
  match w.Do s request with
  | (.error msg, s1) => (.error (.clientDo msg), s1)
  | (.ok response, s1) => (.ok response, s1)

/-- The call `http.Get(url)`: a GET request without a body, built by
`http.NewRequest` and sent by the default client. -/
def httpGet (w : World σ) (url : String) (s : σ) : Except GoError Response × σ :=
  match NewRequest w "GET" url none with
  | .error e => (.error e, s)
  | .ok request => clientDo w request s

/-! ## The scanner client (`main.go`, lines 139-210) -/

/-- The URL `AddLayer` computes (lines 141-146). -/
def AddLayerURL (clair : ClairAPI) : String :=
  let url := clair.Address ++ ":" ++ Itoa clair.Port ++ "/v1/layers"
  if clair.HttpsEnable then url else "http://" ++ url

/-- The method `ClairAPI.AddLayer`: the error it returns (`none` for nil)
and the state of the world after it. -/
def AddLayer (w : World σ) (clair : ClairAPI) (openvzMirror templateName : String) (s : σ) :
    Option GoError × σ :=
  let url := AddLayerURL clair
  let jsonRequest := Marshal
    { ID := templateName, Path := openvzMirror ++ "/" ++ templateName ++ ".tar.gz",
      ParantID := "" }
  match NewRequest w "POST" url (some jsonRequest) with
  | .error err => (some err, s)
  | .ok request =>
    let request := request.HeaderSet "Content-Type" "application/json"
    match clientDo w request s with
    | (.error err, s1) => (some err, s1)
    | (.ok response, s1) =>
      if response.StatusCode ≠ 201 then (some (.errorString response.Body), s1)
      else (none, s1)

/-- The URL `GetLayerVuln` computes (lines 181-186). -/
def GetLayerVulnURL (clair : ClairAPI) (templateName : String) : String :=
  let url := clair.Address ++ ":" ++ Itoa clair.Port ++ "/v1/layers/" ++ templateName
    ++ "/vulnerabilities" ++ "?minimumPriority=" ++ clair.MinimumPriority
  if clair.HttpsEnable then url else "http://" ++ url

/-- The method `ClairAPI.GetLayerVuln`: the vulnerability list and the error
it returns, and the state of the world after it. The named result `vulnList`
is nil (the empty list) until the last assignment. -/
def GetLayerVuln (w : World σ) (clair : ClairAPI) (templateName : String) (s : σ) :
    (List VulnerabilityItem × Option GoError) × σ :=
  let vulnList : List VulnerabilityItem := []
  let url := GetLayerVulnURL clair templateName
  match httpGet w url s with
  | (.error err, s1) => ((vulnList, some err), s1)
  | (.ok response, s1) =>
    let body := response.Body
    if response.StatusCode ≠ 200 then ((vulnList, some (.errorString body)), s1)
    else
      match Unmarshal body ⟨[]⟩ with
      | .error err => ((vulnList, some (.json err)), s1)
      | .ok result => ((result.Vulnerabilities, none), s1)

/-! ## The listing and the main loop (`main.go`, lines 70-127) -/

/-- The function `GetRemoteListing`. -/
def GetRemoteListing (w : World σ) (adress : String) (s : σ) :
    (List String × Option GoError) × σ :=
  match httpGet w (adress ++ "/.listing") s with
  | (.error err, s1) => (([], some err), s1)
  | (.ok result, s1) =>
    match result.ReadErr with
    | some msg => (([], some (.readAll msg)), s1)
    | none => ((Split result.Body, none), s1)

/-- A call of the main loop to the scanner client, with what it returned. -/
inductive Call where
  | AddLayer (templateName : String) (err : Option GoError)
  | GetLayerVuln (templateName : String) (vulnList : List VulnerabilityItem)
      (err : Option GoError)
  deriving DecidableEq, Repr

/-- The loop of `main` over the clean template list (lines 85-107): the calls
it makes to the scanner client, in order, and the final state of the
world. -/
def mainLoop (w : World σ) (clair : ClairAPI) (openvzMirror : String) :
    List String → σ → List Call × σ
  | [], s => ([], s)
  | template :: rest, s =>
    if !supportTemplates.MatchString template then mainLoop w clair openvzMirror rest s
    else
      match AddLayer w clair openvzMirror template s with
      | (some err, s1) =>
        let later := mainLoop w clair openvzMirror rest s1
        (Call.AddLayer template (some err) :: later.1, later.2)
      | (none, s1) =>
        match GetLayerVuln w clair template s1 with
        | ((vulnList, err), s2) =>
          let later := mainLoop w clair openvzMirror rest s2
          (Call.AddLayer template none :: Call.GetLayerVuln template vulnList err :: later.1,
            later.2)

/-- The run of the orchestrator over a listing as the specification words it
(section 4.4), from a state of the world to the calls made and the state
reached. A template the filter rejects is skipped: no call, the state stays.
For a template the filter accepts `AddLayer` is called in the current state;
when it returns an error nothing more is called for the template, and when
it returns no error `GetLayerVuln` is called for the same template in the
state `AddLayer` left. Whatever the calls return, the run goes on with the
rest of the listing from the state reached. -/
inductive Orchestrated (w : World σ) (clair : ClairAPI) (openvzMirror : String) :
    List String → σ → List Call → σ → Prop where
  | done (s : σ) : Orchestrated w clair openvzMirror [] s [] s
  | skipped (template : String) (rest : List String) (s : σ) (calls : List Call) (last : σ)
      (hreject : supportTemplates.MatchString template = false)
      (hrest : Orchestrated w clair openvzMirror rest s calls last) :
      Orchestrated w clair openvzMirror (template :: rest) s calls last
  | registerFailed (template : String) (rest : List String) (s s1 : σ) (err : GoError)
      (calls : List Call) (last : σ)
      (haccept : supportTemplates.MatchString template = true)
      (hadd : AddLayer w clair openvzMirror template s = (some err, s1))
      (hrest : Orchestrated w clair openvzMirror rest s1 calls last) :
      Orchestrated w clair openvzMirror (template :: rest) s
        (Call.AddLayer template (some err) :: calls) last
  | lookedUp (template : String) (rest : List String) (s s1 s2 : σ)
      (vulnList : List VulnerabilityItem) (err : Option GoError)
      (calls : List Call) (last : σ)
      (haccept : supportTemplates.MatchString template = true)
      (hadd : AddLayer w clair openvzMirror template s = (none, s1))
      (hget : GetLayerVuln w clair template s1 = ((vulnList, err), s2))
      (hrest : Orchestrated w clair openvzMirror rest s2 calls last) :
      Orchestrated w clair openvzMirror (template :: rest) s
        (Call.AddLayer template none :: Call.GetLayerVuln template vulnList err :: calls) last

/-- The template of a register call. -/
def Call.registered : Call → Option String
  | .AddLayer templateName _ => some templateName
  | .GetLayerVuln _ _ _ => none

/-- The function `main` after the flags are read: `none` when the listing
cannot be fetched and the program exits through `log.Fatal`, and otherwise
the calls of the main loop. -/
def main (w : World σ) (clair : ClairAPI) (openvzMirror : String) (s : σ) :
    Option (List Call) × σ :=
  match GetRemoteListing w openvzMirror s with
  | ((_, some _), s1) => (none, s1)
  | ((templateList, none), s1) =>
    let templateList := CleanZeroValuesFromArray templateList
    let run := mainLoop w clair openvzMirror templateList s1
    (some run.1, run.2)

/-! ## Sample worlds -/

/-- A world that keeps the log of the requests sent: `http.NewRequest`
accepts the URLs that start with `http://`, and the server answers each
request by the given function of the requests sent before and of the
request. -/
def loggingWorld (answer : List Request → Request → Except String Response) :
    World (List Request) where
  NewRequestErr := fun _ url =>
    if "http://".data.isPrefixOf url.data then none else some "unsupported URL"
  Do := fun log request => (answer log request, log ++ [request])

/-- The world `w` with a log of the requests handed to `client.Do`, in
order. -/
def recording (w : World σ) : World (σ × List Request) where
  NewRequestErr := w.NewRequestErr
  Do := fun st request => ((w.Do st.1 request).1, ((w.Do st.1 request).2, st.2 ++ [request]))

/-- A server that gives the same answer to every request. -/
def always (StatusCode : Int) (Body : String) :
    List Request → Request → Except String Response :=
  fun _ _ => .ok ⟨StatusCode, Body, none⟩

/-- A server that refuses the first register request with 409 "conflict",
accepts the later ones with 201, and answers every lookup with 200 and the
given body. -/
def firstRefused (Body : String) : List Request → Request → Except String Response :=
  fun log request =>
    if request.Method == "GET" then .ok ⟨200, Body, none⟩
    else if log.isEmpty then .ok ⟨409, "conflict", none⟩
    else .ok ⟨201, "", none⟩

/-- A server that accepts every register request with 201 and answers every
lookup with 500 "boom". -/
def lookupsFail : List Request → Request → Except String Response :=
  fun _ request =>
    if request.Method == "GET" then .ok ⟨500, "boom", none⟩ else .ok ⟨201, "", none⟩

/-! # Theorems -/

/-! ## The listing clean-up -/

theorem foldl_cleanStep (array acc : List String) :
    array.foldl cleanStep acc = acc ++ array.filter fun value => decide (value ≠ "") := by
  induction array generalizing acc with
  | nil => simp
  | cons value rest ih =>
    have hlen : value.length > 0 ↔ value ≠ "" := by
      rw [String.length, gt_iff_lt, List.length_pos, ne_eq, ne_eq, String.ext_iff]
    by_cases hv : value = ""
    · subst hv
      simp [cleanStep, ih]
    · have hpos : value.length > 0 := hlen.mpr hv
      simp [cleanStep, ih, hv, hpos]

theorem splitChars_ne_nil (sep : Char) (cs : List Char) : splitChars sep cs ≠ [] := by
  cases cs with
  | nil => simp [splitChars]
  | cons c cs =>
    unfold splitChars
    split
    · simp
    · split <;> simp

theorem intercalate_splitChars (sep : Char) (cs : List Char) :
    List.intercalate [sep] (splitChars sep cs) = cs := by
  induction cs with
  | nil => simp [splitChars, List.intercalate]
  | cons c cs ih =>
    unfold splitChars
    cases hsp : splitChars sep cs with
    | nil => exact absurd hsp (splitChars_ne_nil sep cs)
    | cons seg segs =>
      rw [hsp] at ih
      by_cases hc : c = sep
      · subst hc
        simp only [if_true]
        simp [List.intercalate, List.intersperse] at ih ⊢
        exact ih
      · simp only [hc, if_false]
        cases segs with
        | nil => simp [List.intercalate, List.intersperse] at ih ⊢; exact ih
        | cons seg1 segs1 => simp [List.intercalate, List.intersperse] at ih ⊢; exact ih

theorem splitChars_no_sep (sep : Char) (cs seg : List Char) (h : seg ∈ splitChars sep cs) :
    sep ∉ seg := by
  induction cs generalizing seg with
  | nil => simp [splitChars] at h; subst h; simp
  | cons c cs ih =>
    unfold splitChars at h
    by_cases hc : c = sep
    · simp only [hc, if_true, List.mem_cons] at h
      rcases h with h | h
      · subst h; simp
      · exact ih seg h
    · simp only [hc, if_false] at h
      cases hsp : splitChars sep cs with
      | nil => rw [hsp] at h; simp at h; subst h; simpa using fun h => hc h.symm
      | cons seg0 segs =>
        rw [hsp] at h
        simp only [List.mem_cons] at h
        rcases h with h | h
        · subst h
          have := ih seg0 (by rw [hsp]; simp)
          simp only [List.mem_cons, not_or]
          exact ⟨fun h => hc h.symm, this⟩
        · exact ih seg (by rw [hsp]; simp [h])

/-- C5: for every listing body, splitting on newline and cleaning yields
exactly the non-empty segments of the body in their order (the segments are
the newline-free pieces whose concatenation with newlines between them is the
body), and the body "a\n\nb\n" yields ["a", "b"]. -/
theorem cleanListing_nonempty_segments (body : String) :
    cleanListing body = (Split body).filter (fun seg => decide (seg ≠ "")) ∧
    List.intercalate ['\n'] ((Split body).map String.data) = body.data ∧
    (∀ seg ∈ Split body, '\n' ∉ seg.data) ∧
    cleanListing "a\n\nb\n" = ["a", "b"] := by
  refine ⟨?_, ?_, ?_, by decide⟩
  · simp [cleanListing, CleanZeroValuesFromArray, foldl_cleanStep]
  · simp only [Split, List.map_map]
    have : (String.data ∘ String.mk) = id := by funext x; rfl
    rw [this, List.map_id]
    exact intercalate_splitChars '\n' body.data
  · intro seg hseg
    simp only [Split, List.mem_map] at hseg
    obtain ⟨cs, hcs, rfl⟩ := hseg
    exact splitChars_no_sep '\n' body.data cs hcs

/-- C5 at the body "x\n\ny": the segment "x" is a segment of the body and has
no newline. -/
theorem cleanListing_nonempty_segments_witness :
    "x" ∈ Split "x\n\ny" ∧ '\n' ∉ "x".data :=
  ⟨by decide, (cleanListing_nonempty_segments "x\n\ny").2.2.1 "x" (by decide)⟩

/-- C6, as stated, fails: the body "a\n \nb\n\r\n" yields the entries "a",
" ", "b" and "\r", and the entries " " and "\r" are white space only. -/
theorem cleanListing_keeps_blank_entry :
    cleanListing "a\n \nb\n\r\n" = ["a", " ", "b", "\r"] ∧
    trimsToEmpty " " = true ∧ trimsToEmpty "\r" = true := by
  decide

/-- C6, amended: the clean-up discards exactly the entries of length zero and
trims nothing: no entry of the cleaned listing is the empty string, and every
non-empty segment of the body, white space or not, is an entry. -/
theorem cleanListing_drops_only_empty (body : String) (entry : String) :
    entry ∈ cleanListing body ↔ entry ∈ Split body ∧ entry ≠ "" := by
  simp [cleanListing, CleanZeroValuesFromArray, foldl_cleanStep]

/-! ## The scanner client: target URLs and requests -/

theorem AddLayerURL_off (clair : ClairAPI) (hoff : clair.HttpsEnable = false) :
    AddLayerURL clair = "http://" ++ clair.Address ++ ":" ++ Itoa clair.Port ++ "/v1/layers" := by
  simp [AddLayerURL, hoff, String.append_assoc]

theorem GetLayerVulnURL_off (clair : ClairAPI) (templateName : String)
    (hoff : clair.HttpsEnable = false) :
    GetLayerVulnURL clair templateName =
      "http://" ++ clair.Address ++ ":" ++ Itoa clair.Port ++ "/v1/layers/" ++ templateName
        ++ "/vulnerabilities?minimumPriority=" ++ clair.MinimumPriority := by
  simp only [GetLayerVulnURL, hoff, String.append_assoc]
  rfl

/-- C9: with encrypted transport off, `GetLayerVuln` asks `http.Get` for
exactly "http://" + host + ":" + decimal(port) + "/v1/layers/" + templateName
+ "/vulnerabilities?minimumPriority=" + MinimumPriority; the one request it
sends, unless `http.NewRequest` refuses that URL, is a GET of that URL
without header and without body. -/
theorem GetLayerVuln_request (w : World σ) (clair : ClairAPI) (templateName : String) (s : σ)
    (hoff : clair.HttpsEnable = false) :
    GetLayerVulnURL clair templateName =
      "http://" ++ clair.Address ++ ":" ++ Itoa clair.Port ++ "/v1/layers/" ++ templateName
        ++ "/vulnerabilities?minimumPriority=" ++ clair.MinimumPriority ∧
    (GetLayerVuln (recording w) clair templateName (s, [])).2.2 =
      match w.NewRequestErr "GET" ("http://" ++ clair.Address ++ ":" ++ Itoa clair.Port
          ++ "/v1/layers/" ++ templateName ++ "/vulnerabilities?minimumPriority="
          ++ clair.MinimumPriority) with
      | some _ => []
      | none =>
        [{ Method := "GET",
           URL := "http://" ++ clair.Address ++ ":" ++ Itoa clair.Port ++ "/v1/layers/"
             ++ templateName ++ "/vulnerabilities?minimumPriority=" ++ clair.MinimumPriority,
           Header := [], Body := none }] := by
  refine ⟨GetLayerVulnURL_off clair templateName hoff, ?_⟩
  rw [← GetLayerVulnURL_off clair templateName hoff]
  unfold GetLayerVuln httpGet NewRequest
  cases hnew : w.NewRequestErr "GET" (GetLayerVulnURL clair templateName) with
  | some msg => simp [recording, hnew]
  | none =>
    simp only [recording, hnew, clientDo]
    cases hdo : (w.Do s ⟨"GET", GetLayerVulnURL clair templateName, [], none⟩).1 with
    | error msg => simp
    | ok response =>
      simp only
      split
      · simp
      · split <;> simp

/-- C9 at the default endpoint 127.0.0.1:6060 with priority High and the
template ubuntu-x, in a world whose server answers 200. -/
theorem GetLayerVuln_request_witness :
    (GetLayerVuln (recording (loggingWorld (always 200 "null"))) ⟨"127.0.0.1", 6060, false, "High"⟩
        "ubuntu-x" ([], [])).2.2 =
      [{ Method := "GET",
         URL := "http://127.0.0.1:6060/v1/layers/ubuntu-x/vulnerabilities?minimumPriority=High",
         Header := [], Body := none }] :=
  (GetLayerVuln_request (loggingWorld (always 200 "null")) ⟨"127.0.0.1", 6060, false, "High"⟩
    "ubuntu-x" [] rfl).2

/-! ## JSON texts: the fuel of the parser is enough -/

theorem skipSpace_length_le (cs : List Char) : (skipSpace cs).length ≤ cs.length := by
  induction cs with
  | nil => simp [skipSpace]
  | cons c cs ih =>
    simp only [skipSpace]
    split
    · simp only [List.length_cons]; omega
    · exact Nat.le_refl _

theorem unquoteBody_fuel (f1 : Nat) :
    ∀ (f2 : Nat) (cs : List Char), cs.length < f1 → cs.length < f2 →
      unquoteBody f1 cs = unquoteBody f2 cs := by
  induction f1 with
  | zero => intro f2 cs h; omega
  | succ n ih =>
    intro f2 cs h1 h2
    obtain ⟨m, rfl⟩ : ∃ m, f2 = m + 1 := ⟨f2 - 1, by omega⟩
    cases cs with
    | nil => rfl
    | cons c cs =>
      simp only [List.length_cons] at h1 h2
      have e0 := ih m cs (by omega) (by omega)
      cases cs with
      | nil => simp only [unquoteBody, e0]
      | cons e cs1 =>
        simp only [List.length_cons] at h1 h2
        have e1 := ih m cs1 (by omega) (by omega)
        have e2 := ih m (cs1.drop 4) (by simp only [List.length_drop]; omega)
          (by simp only [List.length_drop]; omega)
        have e3 := ih m ((cs1.drop 4).drop 6) (by simp only [List.length_drop]; omega)
          (by simp only [List.length_drop]; omega)
        simp only [unquoteBody, e0, e1, e2, e3]

theorem unquoteBody_length (f : Nat) :
    ∀ (cs : List Char) (p : List Char × List Char), unquoteBody f cs = some p →
      p.2.length < cs.length := by
  induction f with
  | zero => intro cs p h; simp [unquoteBody] at h
  | succ n ih =>
    intro cs p h
    cases cs with
    | nil => simp [unquoteBody] at h
    | cons c cs =>
      have step : ∀ (tail : List Char) (r : Char), tail.length ≤ cs.length →
          ((unquoteBody n tail).map fun q => (r :: q.1, q.2)) = some p →
          p.2.length < (c :: cs).length := by
        intro tail r hl hq
        cases hu : unquoteBody n tail with
        | none => rw [hu] at hq; cases hq
        | some q =>
          rw [hu] at hq
          simp only [Option.map_some', Option.some.injEq] at hq
          have := ih tail q hu
          rw [← hq]
          simp only [List.length_cons]
          omega
      simp only [unquoteBody] at h
      split at h
      · simp only [Option.some.injEq] at h
        rw [← h]
        simp
      split at h
      · split at h
        · cases h
        · rename_i e cs1
          split at h
          · split at h
            · cases h
            · split at h
              · split at h
                · exact step _ _ (by simp only [List.length_drop, List.length_cons]; omega) h
                · exact step _ _ (by simp only [List.length_drop, List.length_cons]; omega) h
              · exact step _ _ (by simp only [List.length_drop, List.length_cons]; omega) h
          · split at h
            · cases h
            · exact step _ _ (by simp only [List.length_cons]; omega) h
      split at h
      · cases h
      · exact step _ _ (Nat.le_refl _) h

theorem takeDigits_length (cs : List Char) : (takeDigits cs).2.length ≤ cs.length := by
  induction cs with
  | nil => simp [takeDigits]
  | cons c cs ih =>
    simp only [takeDigits]
    split
    · simp only [List.length_cons]; omega
    · exact Nat.le_refl _

theorem scanInt_length (cs : List Char) (p : List Char × List Char)
    (h : scanInt cs = some p) : p.2.length < cs.length := by
  cases cs with
  | nil => simp [scanInt] at h
  | cons c rest =>
    simp only [scanInt] at h
    split at h
    · cases h; simp
    · split at h
      · cases h
        have := takeDigits_length rest
        simp only [List.length_cons]
        omega
      · cases h

theorem scanFrac_length (cs : List Char) (p : List Char × List Char)
    (h : scanFrac cs = some p) : p.2.length ≤ cs.length := by
  cases cs with
  | nil => simp only [scanFrac, Option.some.injEq] at h; rw [← h]
  | cons c rest =>
    simp only [scanFrac] at h
    split at h
    · split at h
      · cases h
      · rename_i d ds r hd
        cases h
        have := takeDigits_length rest
        rw [hd] at this
        simp only [List.length_cons] at this ⊢
        omega
    · cases h; exact Nat.le_refl _

theorem takeSign_length (plus minus : Char) (cs : List Char) :
    (takeSign plus minus cs).2.length ≤ cs.length := by
  cases cs with
  | nil => exact Nat.le_refl _
  | cons g r =>
    simp only [takeSign]
    split
    · simp only [List.length_cons]; omega
    · exact Nat.le_refl _

theorem scanExp_length (cs : List Char) (p : List Char × List Char)
    (h : scanExp cs = some p) : p.2.length ≤ cs.length := by
  cases cs with
  | nil => simp only [scanExp, Option.some.injEq] at h; rw [← h]
  | cons e rest =>
    simp only [scanExp] at h
    split at h
    · split at h
      · cases h
      · rename_i d ds r hd
        cases h
        have h1 := takeSign_length '+' '-' rest
        have h2 := takeDigits_length (takeSign '+' '-' rest).2
        rw [hd] at h2
        simp only [List.length_cons] at h2 ⊢
        omega
    · cases h; exact Nat.le_refl _

theorem scanNumber_length (cs : List Char) (p : List Char × List Char)
    (h : scanNumber cs = some p) : p.2.length < cs.length := by
  simp only [scanNumber] at h
  have hs := takeSign_length '-' '-' cs
  split at h
  · cases h
  · rename_i i cs2 hi
    have h1 := scanInt_length _ _ hi
    split at h
    · cases h
    · rename_i f cs3 hf
      have h2 := scanFrac_length _ _ hf
      split at h
      · cases h
      · rename_i e cs4 he
        have h3 := scanExp_length _ _ he
        cases h
        simp only at h1 h2 h3 ⊢
        omega

theorem stripLiteral_length (ls : List Char) :
    ∀ (cs r : List Char), stripLiteral ls cs = some r → r.length ≤ cs.length := by
  induction ls with
  | nil => intro cs r h; simp only [stripLiteral, Option.some.injEq] at h; rw [h]
  | cons l ls ih =>
    intro cs r h
    cases cs with
    | nil => simp [stripLiteral] at h
    | cons c cs =>
      simp only [stripLiteral] at h
      split at h
      · have := ih cs r h
        simp only [List.length_cons]
        omega
      · cases h

theorem parse_length (f : Nat) :
    (∀ cs p, parseValue f cs = some p → p.2.length < cs.length) ∧
    (∀ cs p, parseElements f cs = some p → p.2.length < cs.length) ∧
    (∀ cs p, parseMembers f cs = some p → p.2.length < cs.length) := by
  induction f with
  | zero =>
    refine ⟨?_, ?_, ?_⟩ <;> intro cs p h
    · simp [parseValue] at h
    · simp [parseElements] at h
    · simp [parseMembers] at h
  | succ n ih =>
    obtain ⟨ihV, ihE, ihM⟩ := ih
    refine ⟨?_, ?_, ?_⟩
    · intro cs p h
      cases cs with
      | nil => simp [parseValue] at h
      | cons c cs =>
        simp only [parseValue] at h
        split at h
        · cases hu : unquoteBody (cs.length + 1) cs with
          | none => rw [hu] at h; cases h
          | some q =>
            rw [hu] at h
            cases h
            have := unquoteBody_length _ _ _ hu
            simp only [List.length_cons]
            omega
        split at h
        · have hsk := skipSpace_length_le cs
          split at h
          · cases h
          · rename_i d ds hd
            rw [hd] at hsk
            simp only [List.length_cons] at hsk ⊢
            split at h
            · cases h
              simp only
              omega
            · cases he : parseElements n (d :: ds) with
              | none => rw [he] at h; cases h
              | some q =>
                rw [he] at h
                cases h
                have := ihE _ _ he
                simp only [List.length_cons] at this ⊢
                omega
        split at h
        · have hsk := skipSpace_length_le cs
          split at h
          · cases h
          · rename_i d ds hd
            rw [hd] at hsk
            simp only [List.length_cons] at hsk ⊢
            split at h
            · cases h
              simp only
              omega
            · cases he : parseMembers n (d :: ds) with
              | none => rw [he] at h; cases h
              | some q =>
                rw [he] at h
                cases h
                have := ihM _ _ he
                simp only [List.length_cons] at this ⊢
                omega
        have lit : ∀ (ls : List Char) (v : JSON),
            ((stripLiteral ls cs).map fun r => (v, r)) = some p →
            p.2.length < (c :: cs).length := by
          intro ls v hl
          cases hs : stripLiteral ls cs with
          | none => rw [hs] at hl; cases hl
          | some r =>
            rw [hs] at hl
            cases hl
            have := stripLiteral_length _ _ _ hs
            simp only [List.length_cons]
            omega
        split at h
        · exact lit _ _ h
        split at h
        · exact lit _ _ h
        split at h
        · exact lit _ _ h
        · cases hs : scanNumber (c :: cs) with
          | none => rw [hs] at h; cases h
          | some q =>
            rw [hs] at h
            cases h
            exact scanNumber_length _ _ hs
    · intro cs p h
      simp only [parseElements] at h
      split at h
      · cases h
      · rename_i v rest hv
        have h1 := ihV _ _ hv
        have hsk := skipSpace_length_le rest
        simp only at h1
        split at h
        · cases h
        · rename_i d ds hd
          rw [hd] at hsk
          simp only [List.length_cons] at hsk
          split at h
          · cases h
            simp only
            omega
          · split at h
            · cases he : parseElements n (skipSpace ds) with
              | none => rw [he] at h; cases h
              | some q =>
                rw [he] at h
                cases h
                have := ihE _ _ he
                have := skipSpace_length_le ds
                simp only at *
                omega
            · cases h
    · intro cs p h
      cases cs with
      | nil => simp [parseMembers] at h
      | cons c cs =>
        simp only [parseMembers] at h
        split at h
        · split at h
          · cases h
          · rename_i key rest hk
            have h0 := unquoteBody_length _ _ _ hk
            have hsk := skipSpace_length_le rest
            simp only at h0
            split at h
            · cases h
            · rename_i d ds hd
              rw [hd] at hsk
              simp only [List.length_cons] at hsk
              split at h
              · have hsk2 := skipSpace_length_le ds
                split at h
                · cases h
                · rename_i v rest1 hv
                  have h1 := ihV _ _ hv
                  have hsk3 := skipSpace_length_le rest1
                  simp only at h1
                  split at h
                  · cases h
                  · rename_i e es hes
                    rw [hes] at hsk3
                    simp only [List.length_cons] at hsk3 ⊢
                    split at h
                    · cases h
                      simp only
                      omega
                    · split at h
                      · cases hm : parseMembers n (skipSpace es) with
                        | none => rw [hm] at h; cases h
                        | some q =>
                          rw [hm] at h
                          cases h
                          have := ihM _ _ hm
                          have := skipSpace_length_le es
                          simp only at *
                          omega
                      · cases h
              · cases h
        · cases h

theorem parse_fuel (f1 : Nat) :
    ∀ f2,
      (∀ cs, 2 * cs.length ≤ f1 → 2 * cs.length ≤ f2 → parseValue f1 cs = parseValue f2 cs) ∧
      (∀ cs, 2 * cs.length + 1 ≤ f1 → 2 * cs.length + 1 ≤ f2 →
        parseElements f1 cs = parseElements f2 cs) ∧
      (∀ cs, 2 * cs.length ≤ f1 → 2 * cs.length ≤ f2 →
        parseMembers f1 cs = parseMembers f2 cs) := by
  induction f1 with
  | zero =>
    intro f2
    refine ⟨?_, ?_, ?_⟩
    · intro cs h1 h2
      have : cs = [] := List.length_eq_zero.mp (by omega)
      subst this
      cases f2 <;> rfl
    · intro cs h1 h2
      omega
    · intro cs h1 h2
      have : cs = [] := List.length_eq_zero.mp (by omega)
      subst this
      cases f2 <;> rfl
  | succ n ih =>
    intro f2
    refine ⟨?_, ?_, ?_⟩
    · intro cs h1 h2
      cases cs with
      | nil => cases f2 <;> rfl
      | cons c cs =>
        simp only [List.length_cons] at h1 h2
        obtain ⟨m, rfl⟩ : ∃ m, f2 = m + 1 := ⟨f2 - 1, by omega⟩
        obtain ⟨-, ihE, ihM⟩ := ih m
        have hsk := skipSpace_length_le cs
        simp only [parseValue]
        cases hd : skipSpace cs with
        | nil => rfl
        | cons d ds =>
          rw [hd] at hsk
          simp only [List.length_cons] at hsk
          have e1 := ihE (d :: ds) (by simp only [List.length_cons]; omega)
            (by simp only [List.length_cons]; omega)
          have e2 := ihM (d :: ds) (by simp only [List.length_cons]; omega)
            (by simp only [List.length_cons]; omega)
          simp only [e1, e2]
    · intro cs h1 h2
      obtain ⟨m, rfl⟩ : ∃ m, f2 = m + 1 := ⟨f2 - 1, by omega⟩
      obtain ⟨ihV, ihE, -⟩ := ih m
      simp only [parseElements]
      rw [ihV cs (by omega) (by omega)]
      cases hv : parseValue m cs with
      | none => rfl
      | some p =>
        obtain ⟨v, rest⟩ := p
        have hl := (parse_length m).1 _ _ hv
        have hsk := skipSpace_length_le rest
        simp only at hl ⊢
        cases hd : skipSpace rest with
        | nil => rfl
        | cons d ds =>
          rw [hd] at hsk
          simp only [List.length_cons] at hsk
          have hsk2 := skipSpace_length_le ds
          simp only
          rw [ihE (skipSpace ds) (by omega) (by omega)]
    · intro cs h1 h2
      cases cs with
      | nil => cases f2 <;> rfl
      | cons c cs =>
        simp only [List.length_cons] at h1 h2
        obtain ⟨m, rfl⟩ : ∃ m, f2 = m + 1 := ⟨f2 - 1, by omega⟩
        obtain ⟨ihV, -, ihM⟩ := ih m
        simp only [parseMembers]
        by_cases hc : c = '"'
        · simp only [hc, if_true]
          cases hk : unquoteBody (cs.length + 1) cs with
          | none => rfl
          | some p =>
            obtain ⟨key, rest⟩ := p
            have hl := unquoteBody_length _ _ _ hk
            have hsk := skipSpace_length_le rest
            simp only at hl ⊢
            cases hd : skipSpace rest with
            | nil => rfl
            | cons d ds =>
              rw [hd] at hsk
              simp only [List.length_cons] at hsk
              have hsk2 := skipSpace_length_le ds
              simp only
              rw [ihV (skipSpace ds) (by omega) (by omega)]
              cases hv : parseValue m (skipSpace ds) with
              | none => rfl
              | some q =>
                obtain ⟨v, rest1⟩ := q
                have hl1 := (parse_length m).1 _ _ hv
                have hsk3 := skipSpace_length_le rest1
                simp only at hl1 ⊢
                cases he : skipSpace rest1 with
                | nil => rfl
                | cons e es =>
                  rw [he] at hsk3
                  simp only [List.length_cons] at hsk3
                  have hsk4 := skipSpace_length_le es
                  simp only
                  rw [ihM (skipSpace es) (by omega) (by omega)]
        · simp only [hc, if_false]

/-- The fuel of `parseJSON` is enough: with that much fuel or more the result
of `parseValue` no longer depends on the fuel. -/
theorem parseValue_fuel (cs : List Char) (fuel : Nat) (h : 2 * cs.length + 2 ≤ fuel) :
    parseValue fuel cs = parseValue (2 * cs.length + 2) cs :=
  (parse_fuel fuel (2 * cs.length + 2)).1 cs (by omega) (by omega)

/-! ## JSON texts: what the encoder writes, the decoder reads back -/

theorem unquoteBody_plain (fuel : Nat) (c : Char) (cs : List Char) (h1 : c ≠ '"')
    (h2 : c ≠ '\\') (h3 : ¬ c.toNat < 0x20) :
    unquoteBody (fuel + 1) (c :: cs) = (unquoteBody fuel cs).map fun p => (c :: p.1, p.2) := by
  simp [unquoteBody, h1, h2, h3]

theorem unquoteBody_escaped (fuel : Nat) (e r : Char) (cs : List Char) (he : e ≠ 'u')
    (hr : unescape e = some r) :
    unquoteBody (fuel + 1) ('\\' :: e :: cs) =
      (unquoteBody fuel cs).map fun p => (r :: p.1, p.2) := by
  simp [unquoteBody, he, hr]

theorem unquoteBody_u4 (fuel : Nat) (a b c d : Char) (cs : List Char) (rr : Nat)
    (h : getu4 ('\\' :: 'u' :: a :: b :: c :: d :: cs) = some rr) (hs : isSurrogate rr = false) :
    unquoteBody (fuel + 1) ('\\' :: 'u' :: a :: b :: c :: d :: cs) =
      (unquoteBody fuel cs).map fun p => (Char.ofNat rr :: p.1, p.2) := by
  simp [unquoteBody, h, hs]

theorem hexDigit_hexChar : ∀ n, n < 16 → hexDigit (hexChar n) = some n := by decide

theorem getu4_tail (a b c d : Char) (cs : List Char) :
    getu4 ('\\' :: 'u' :: a :: b :: c :: d :: cs) = getu4 ['\\', 'u', a, b, c, d] := rfl

theorem getu4_low (n : Nat) (hn : n < 256) (cs : List Char) :
    getu4 ('\\' :: 'u' :: '0' :: '0' :: hexChar (n / 16) :: hexChar (n % 16) :: cs) = some n := by
  have h1 := hexDigit_hexChar (n / 16) (by omega)
  have h2 := hexDigit_hexChar (n % 16) (by omega)
  have h0 : hexDigit '0' = some 0 := by decide
  simp only [getu4, h0, h1, h2]
  congr 1
  omega

theorem unquoteBody_appendRune (fuel : Nat) (c : Char) (tail : List Char) :
    unquoteBody (fuel + 1) (appendRune c ++ tail) =
      (unquoteBody fuel tail).map fun p => (c :: p.1, p.2) := by
  unfold appendRune
  split
  · rename_i h
    rcases h with h | h <;> subst h <;>
      exact unquoteBody_escaped fuel _ _ tail (by decide) (by decide)
  split
  · rename_i h; subst h; exact unquoteBody_escaped fuel 'b' _ tail (by decide) (by decide)
  split
  · rename_i h; subst h; exact unquoteBody_escaped fuel 'f' _ tail (by decide) (by decide)
  split
  · rename_i h; subst h; exact unquoteBody_escaped fuel 'n' _ tail (by decide) (by decide)
  split
  · rename_i h; subst h; exact unquoteBody_escaped fuel 'r' _ tail (by decide) (by decide)
  split
  · rename_i h; subst h; exact unquoteBody_escaped fuel 't' _ tail (by decide) (by decide)
  split
  · rename_i h
    have hn : c.toNat < 256 := by
      rcases h with h | h | h | h
      · omega
      · subst h; decide
      · subst h; decide
      · subst h; decide
    have hs : isSurrogate c.toNat = false := by
      simp only [isSurrogate, Bool.and_eq_false_imp, decide_eq_true_eq, decide_eq_false_iff_not]
      omega
    have := unquoteBody_u4 fuel '0' '0' (hexChar (c.toNat / 16)) (hexChar (c.toNat % 16)) tail
      c.toNat (getu4_low c.toNat hn tail) hs
    rw [Char.ofNat_toNat] at this
    exact this
  split
  · rename_i h
    rcases h with h | h <;> subst h <;>
      exact unquoteBody_u4 fuel _ _ _ _ tail _ ((getu4_tail _ _ _ _ tail).trans (by decide))
        (by decide)
  · rename_i h1 h2 h3 h4 h5 h6 h7 h8
    apply unquoteBody_plain
    · exact fun h => h1 (Or.inr h)
    · exact fun h => h1 (Or.inl h)
    · exact fun h => h7 (Or.inl h)

theorem appendRune_length_pos (c : Char) : 1 ≤ (appendRune c).length := by
  unfold appendRune
  repeat' split
  all_goals simp

theorem unquoteBody_escapeChars (cs rest : List Char) :
    ∀ fuel, (escapeChars cs).length + 1 ≤ fuel →
      unquoteBody fuel (escapeChars cs ++ '"' :: rest) = some (cs, rest) := by
  induction cs with
  | nil =>
    intro fuel h
    obtain ⟨f, rfl⟩ : ∃ f, fuel = f + 1 := ⟨fuel - 1, by omega⟩
    simp [escapeChars, unquoteBody]
  | cons c cs ih =>
    intro fuel h
    obtain ⟨f, rfl⟩ : ∃ f, fuel = f + 1 := ⟨fuel - 1, by omega⟩
    have hlen := appendRune_length_pos c
    simp only [escapeChars, List.length_append] at h
    simp only [escapeChars, List.append_assoc]
    rw [unquoteBody_appendRune, ih f (by omega)]
    rfl

theorem unquoteBody_quoteChars (s : String) (rest : List Char) :
    unquoteBody ((escapeChars s.data ++ '"' :: rest).length + 1)
      (escapeChars s.data ++ '"' :: rest) = some (s.data, rest) :=
  unquoteBody_escapeChars s.data rest _ (by simp)

theorem quoteChars_append (s : String) (rest : List Char) :
    quoteChars s ++ rest = '"' :: (escapeChars s.data ++ '"' :: rest) := by
  simp [quoteChars]

theorem parseValue_quoteChars (fuel : Nat) (s : String) (rest : List Char) :
    parseValue (fuel + 1) (quoteChars s ++ rest) = some (JSON.string s, rest) := by
  rw [quoteChars_append]
  simp only [parseValue, if_true, unquoteBody_quoteChars, Option.map_some']

theorem skipSpace_quoteChars (s : String) (rest : List Char) :
    skipSpace (quoteChars s ++ rest) = quoteChars s ++ rest := by
  rw [quoteChars_append]
  rfl

theorem parseMembers_key (fuel : Nat) (key : String) (cs : List Char)
    (hcs : skipSpace cs = cs) :
    parseMembers (fuel + 1) (quoteChars key ++ ':' :: cs) =
      match parseValue fuel cs with
      | none => none
      | some (v, rest1) =>
        match skipSpace rest1 with
        | [] => none
        | e :: es =>
          if e = '}' then some ([(key, v)], es)
          else if e = ',' then
            (parseMembers fuel (skipSpace es)).map fun p => ((key, v) :: p.1, p.2)
          else none := by
  rw [quoteChars_append]
  simp only [parseMembers, if_true, unquoteBody_quoteChars]
  have h1 : skipSpace (':' :: cs) = ':' :: cs := rfl
  simp only [h1, if_true, hcs]

theorem parseMembers_last (fuel : Nat) (key value : String) (rest : List Char) :
    parseMembers (fuel + 2) (renderMember key value ++ '}' :: rest) =
      some ([(key, JSON.string value)], rest) := by
  have hv := parseValue_quoteChars fuel value ('}' :: rest)
  have h1 : skipSpace ('}' :: rest) = '}' :: rest := rfl
  simp only [renderMember, List.append_assoc, List.cons_append]
  rw [parseMembers_key _ _ _ (skipSpace_quoteChars _ _), hv]
  simp only [h1, if_true]

theorem parseMembers_more (fuel : Nat) (key value key1 : String) (rest : List Char) :
    parseMembers (fuel + 2) (renderMember key value ++ ',' :: (quoteChars key1 ++ rest)) =
      (parseMembers (fuel + 1) (quoteChars key1 ++ rest)).map fun p =>
        ((key, JSON.string value) :: p.1, p.2) := by
  have hv := parseValue_quoteChars fuel value (',' :: (quoteChars key1 ++ rest))
  have h1 : skipSpace (',' :: (quoteChars key1 ++ rest)) = ',' :: (quoteChars key1 ++ rest) :=
    rfl
  have h2 : (',' : Char) ≠ '}' := by decide
  simp only [renderMember, List.append_assoc, List.cons_append]
  rw [parseMembers_key _ _ _ (skipSpace_quoteChars _ _), hv]
  simp only [h1, h2, if_true, if_false, skipSpace_quoteChars]

theorem parseValue_object (fuel : Nat) (key : String) (cs : List Char) :
    parseValue (fuel + 1) ('{' :: (quoteChars key ++ cs)) =
      (parseMembers fuel (quoteChars key ++ cs)).map fun p => (JSON.object p.1, p.2) := by
  have h1 : ('{' : Char) ≠ '"' := by decide
  have h2 : ('{' : Char) ≠ '[' := by decide
  have h3 : ('"' : Char) ≠ '}' := by decide
  rw [parseValue]
  simp only [h1, h2, if_true, if_false, skipSpace_quoteChars]
  rw [quoteChars_append]
  simp only [h3, if_false]

theorem parseValue_Marshal (fuel : Nat) (v : AddLayoutRequestAPI) :
    parseValue (fuel + 5) (Marshal v).data = some (v.toJSON, []) := by
  simp only [Marshal, List.append_assoc, List.cons_append, renderMember, List.nil_append]
  rw [parseValue_object]
  have := parseMembers_more (fuel + 2) "ID" v.ID "Path"
  simp only [renderMember, List.append_assoc, List.cons_append] at this
  rw [this]
  have := parseMembers_more (fuel + 1) "Path" v.Path "ParantID"
  simp only [renderMember, List.append_assoc, List.cons_append] at this
  rw [this]
  have := parseMembers_last fuel "ParantID" v.ParantID []
  simp only [renderMember, List.append_assoc, List.cons_append] at this
  rw [this]
  rfl

theorem parseValue_renderItem (fuel : Nat) (item : VulnerabilityItem) (rest : List Char) :
    parseValue (fuel + 6) (renderItem item ++ rest) = some (item.toJSON, rest) := by
  simp only [renderItem, List.append_assoc, List.cons_append, renderMember, List.nil_append]
  rw [parseValue_object]
  have := parseMembers_more (fuel + 3) "ID" item.ID "Link"
  simp only [renderMember, List.append_assoc, List.cons_append] at this
  rw [this]
  have := parseMembers_more (fuel + 2) "Link" item.Link "Priority"
  simp only [renderMember, List.append_assoc, List.cons_append] at this
  rw [this]
  have := parseMembers_more (fuel + 1) "Priority" item.Priority "Description"
  simp only [renderMember, List.append_assoc, List.cons_append] at this
  rw [this]
  have := parseMembers_last fuel "Description" item.Description rest
  simp only [renderMember, List.append_assoc, List.cons_append] at this
  rw [this]
  rfl

theorem skipSpace_renderItems (item : VulnerabilityItem) (items : List VulnerabilityItem)
    (rest : List Char) :
    skipSpace (renderItems (item :: items) ++ rest) = renderItems (item :: items) ++ rest := by
  cases items <;> rfl

theorem parseElements_renderItems (items : List VulnerabilityItem) :
    ∀ (item : VulnerabilityItem) (rest : List Char) (fuel : Nat), items.length + 7 ≤ fuel →
      parseElements fuel (renderItems (item :: items) ++ ']' :: rest) =
        some ((item :: items).map VulnerabilityItem.toJSON, rest) := by
  induction items with
  | nil =>
    intro item rest fuel h
    obtain ⟨f, rfl⟩ : ∃ f, fuel = f + 7 := ⟨fuel - 7, by omega⟩
    have h1 : skipSpace (']' :: rest) = ']' :: rest := rfl
    rw [parseElements]
    simp only [renderItems, parseValue_renderItem, h1, if_true, List.map]
  | cons item1 items ih =>
    intro item rest fuel h
    simp only [List.length_cons] at h
    obtain ⟨f, rfl⟩ : ∃ f, fuel = f + 7 := ⟨fuel - 7, by omega⟩
    have h1 : ∀ cs, skipSpace (',' :: cs) = ',' :: cs := fun _ => rfl
    have h2 : (',' : Char) ≠ ']' := by decide
    rw [parseElements]
    simp only [renderItems, List.append_assoc, List.cons_append, parseValue_renderItem, h1, h2,
      if_true, if_false, skipSpace_renderItems]
    rw [ih item1 rest (f + 6) (by omega)]
    rfl

theorem parseValue_array (fuel : Nat) (records : List VulnerabilityItem) (rest : List Char)
    (h : records.length + 7 ≤ fuel) :
    parseValue (fuel + 1) ('[' :: (renderItems records ++ ']' :: rest)) =
      some (JSON.array (records.map VulnerabilityItem.toJSON), rest) := by
  have h1 : ('[' : Char) ≠ '"' := by decide
  rw [parseValue]
  simp only [h1, if_true, if_false]
  cases records with
  | nil => rfl
  | cons item items =>
    simp only [List.length_cons] at h
    rw [skipSpace_renderItems]
    have hne : ∀ tail, ∃ ds, renderItems (item :: items) ++ tail = '{' :: ds := by
      intro tail
      cases items <;> exact ⟨_, rfl⟩
    obtain ⟨ds, hds⟩ := hne (']' :: rest)
    have h2 : ('{' : Char) ≠ ']' := by decide
    have := parseElements_renderItems items item rest fuel (by omega)
    rw [hds] at this ⊢
    simp only [h2, if_false, this, Option.map_some']

theorem length_renderItems (records : List VulnerabilityItem) :
    records.length ≤ (renderItems records).length := by
  induction records with
  | nil => simp
  | cons item items ih =>
    cases items with
    | nil => simp [renderItems, renderItem]
    | cons item1 items =>
      simp only [renderItems, List.length_cons, List.length_append] at ih ⊢
      omega

theorem parseJSON_Marshal (v : AddLayoutRequestAPI) : parseJSON (Marshal v) = some v.toJSON := by
  have hs : skipSpace (Marshal v).data = (Marshal v).data := rfl
  have hlen : 2 ≤ (Marshal v).data.length := by
    simp only [Marshal, List.length_cons, List.length_append]
    omega
  obtain ⟨f, hf⟩ : ∃ f, 2 * (Marshal v).data.length + 2 = f + 5 :=
    ⟨2 * (Marshal v).data.length + 2 - 5, by omega⟩
  simp only [parseJSON, hs, hf, parseValue_Marshal]
  rfl

theorem parseValue_renderResponse (records : List VulnerabilityItem) (fuel : Nat)
    (h : records.length + 7 ≤ fuel) :
    parseValue (fuel + 3) (renderResponse records).data = some (responseJSON records, []) := by
  have h1 : skipSpace ('[' :: (renderItems records ++ [']', '}'])) =
      '[' :: (renderItems records ++ [']', '}']) := rfl
  have h2 : skipSpace ['}'] = ['}'] := rfl
  simp only [renderResponse, List.append_assoc, List.cons_append]
  rw [parseValue_object, parseMembers_key _ _ _ h1, parseValue_array _ _ _ h]
  simp only [h2, if_true]
  rfl

theorem parseJSON_renderResponse (records : List VulnerabilityItem) :
    parseJSON (renderResponse records) = some (responseJSON records) := by
  have hs : skipSpace (renderResponse records).data = (renderResponse records).data := rfl
  have hlen : records.length + 4 ≤ (renderResponse records).data.length := by
    have := length_renderItems records
    simp only [renderResponse, List.length_cons, List.length_append]
    omega
  obtain ⟨f, hf⟩ : ∃ f, 2 * (renderResponse records).data.length + 2 = f + 3 :=
    ⟨2 * (renderResponse records).data.length + 2 - 3, by omega⟩
  simp only [parseJSON, hs, hf]
  rw [parseValue_renderResponse records f (by omega)]
  rfl

theorem decodeItem_toJSON (current item : VulnerabilityItem) :
    decodeItem current item.toJSON = .ok item := by
  have k1 : keyIs "ID" "ID" = true := by decide
  have k2 : keyIs "ID" "Link" = false := by decide
  have k3 : keyIs "Link" "Link" = true := by decide
  have k4 : keyIs "ID" "Priority" = false := by decide
  have k5 : keyIs "Link" "Priority" = false := by decide
  have k6 : keyIs "Priority" "Priority" = true := by decide
  have k7 : keyIs "ID" "Description" = false := by decide
  have k8 : keyIs "Link" "Description" = false := by decide
  have k9 : keyIs "Priority" "Description" = false := by decide
  have k10 : keyIs "Description" "Description" = true := by decide
  simp [decodeItem, VulnerabilityItem.toJSON, decodeItemMembers, decodeItemMember, decodeString,
    k1, k2, k3, k4, k5, k6, k7, k8, k9, k10, Except.map]

theorem decodeItems_toJSON (records : List VulnerabilityItem) :
    ∀ current, decodeItems current (records.map VulnerabilityItem.toJSON) = .ok records := by
  induction records with
  | nil => intro current; rfl
  | cons item items ih =>
    intro current
    simp only [List.map, decodeItems, decodeItem_toJSON, ih]

theorem decodeResponse_responseJSON (result : GetLayersVulnResponseAPI)
    (records : List VulnerabilityItem) :
    decodeResponse result (responseJSON records) = .ok ⟨records⟩ := by
  have k : keyIs "Vulnerabilities" "Vulnerabilities" = true := by decide
  simp [decodeResponse, responseJSON, decodeResponseMembers, decodeResponseMember, k,
    decodeItems_toJSON, Except.map]

/-! ## The scanner client: requests, status codes and decoding -/

/-- What `AddLayer` does once its target URL is fixed: the error of
`http.NewRequest`, or the error of `client.Do`, or an error carrying the body
when the status is not 201, or no error. -/
theorem AddLayer_eq (w : World σ) (clair : ClairAPI) (openvzMirror templateName : String)
    (s : σ) :
    AddLayer w clair openvzMirror templateName s =
      match w.NewRequestErr "POST" (AddLayerURL clair) with
      | some msg => (some (.newRequest msg), s)
      | none =>
        match w.Do s
          { Method := "POST", URL := AddLayerURL clair,
            Header := [("Content-Type", "application/json")],
            Body := some (Marshal ⟨templateName,
              openvzMirror ++ "/" ++ templateName ++ ".tar.gz", ""⟩) } with
        | (.error msg, s1) => (some (.clientDo msg), s1)
        | (.ok response, s1) =>
          if response.StatusCode = 201 then (none, s1)
          else (some (.errorString response.Body), s1) := by
  cases hnew : w.NewRequestErr "POST" (AddLayerURL clair) with
  | some msg => simp only [AddLayer, NewRequest, hnew]
  | none =>
    simp only [AddLayer, NewRequest, hnew, clientDo, Request.HeaderSet, List.filter_nil]
    generalize w.Do s _ = r
    rcases r with ⟨r | response, s1⟩
    · rfl
    · by_cases h : response.StatusCode = 201 <;> simp [h]

/-- C2: whatever response the scanner gives to the register request,
`AddLayer` returns no error exactly when the status code is 201, and for
every other status it returns the error made by `errors.New` from the body,
whose text is the body verbatim. -/
theorem AddLayer_status (w : World σ) (clair : ClairAPI) (openvzMirror templateName : String)
    (s s1 : σ) (response : Response)
    (hnew : w.NewRequestErr "POST" (AddLayerURL clair) = none)
    (hdo : w.Do s
      { Method := "POST", URL := AddLayerURL clair,
        Header := [("Content-Type", "application/json")],
        Body := some (Marshal ⟨templateName,
          openvzMirror ++ "/" ++ templateName ++ ".tar.gz", ""⟩) } = (.ok response, s1)) :
    ((AddLayer w clair openvzMirror templateName s).1 = none ↔ response.StatusCode = 201) ∧
    (response.StatusCode ≠ 201 →
      ∃ err, (AddLayer w clair openvzMirror templateName s).1 = some err ∧
        err = .errorString response.Body ∧ err.Error = response.Body) := by
  rw [AddLayer_eq, hnew]
  simp only [hdo]
  by_cases h : response.StatusCode = 201 <;> simp [h, GoError.Error]

/-- C2 at the answers 201 and 409 "conflict" of the specification. -/
theorem AddLayer_status_witness :
    (AddLayer (loggingWorld (always 201 "")) ⟨"127.0.0.1", 6060, false, "High"⟩
        "https://download.openvz.org/template/precreated/" "ubuntu-x" []).1 = none ∧
    ∃ err, (AddLayer (loggingWorld (always 409 "conflict")) ⟨"127.0.0.1", 6060, false, "High"⟩
        "https://download.openvz.org/template/precreated/" "ubuntu-x" []).1 = some err ∧
      err = .errorString "conflict" ∧ err.Error = "conflict" :=
  ⟨(AddLayer_status (loggingWorld (always 201 "")) ⟨"127.0.0.1", 6060, false, "High"⟩
      "https://download.openvz.org/template/precreated/" "ubuntu-x" [] _ ⟨201, "", none⟩
      rfl rfl).1.mpr rfl,
   (AddLayer_status (loggingWorld (always 409 "conflict")) ⟨"127.0.0.1", 6060, false, "High"⟩
      "https://download.openvz.org/template/precreated/" "ubuntu-x" [] _ ⟨409, "conflict", none⟩
      rfl rfl).2 (by decide)⟩

/-- What `GetLayerVuln` does once `http.Get` has returned. -/
theorem GetLayerVuln_eq (w : World σ) (clair : ClairAPI) (templateName : String) (s : σ) :
    GetLayerVuln w clair templateName s =
      match httpGet w (GetLayerVulnURL clair templateName) s with
      | (.error err, s1) => (([], some err), s1)
      | (.ok response, s1) =>
        if response.StatusCode = 200 then
          match Unmarshal response.Body ⟨[]⟩ with
          | .error err => (([], some (.json err)), s1)
          | .ok result => ((result.Vulnerabilities, none), s1)
        else (([], some (.errorString response.Body)), s1) := by
  unfold GetLayerVuln
  simp only
  generalize httpGet w (GetLayerVulnURL clair templateName) s = r
  rcases r with ⟨err | response, s1⟩
  · rfl
  · by_cases h : response.StatusCode = 200
    · dsimp only
      rw [if_neg (not_not.mpr h), if_pos h]
    · dsimp only
      rw [if_pos h, if_neg h]

/-- C8: with encrypted transport off, the one request `AddLayer` hands to
`client.Do`, unless `http.NewRequest` refuses the URL, is a POST to exactly
"http://" + host + ":" + decimal(port) + "/v1/layers" with the header
Content-Type: application/json, and its body is the JSON text of an object
with exactly the fields ID = templateName, Path = mirror + "/" + templateName
+ ".tar.gz" and ParantID = "". -/
theorem AddLayer_request (w : World σ) (clair : ClairAPI) (openvzMirror templateName : String)
    (s : σ) (hoff : clair.HttpsEnable = false) :
    ∃ body : String,
      parseJSON body = some (JSON.object [("ID", .string templateName),
        ("Path", .string (openvzMirror ++ "/" ++ templateName ++ ".tar.gz")),
        ("ParantID", .string "")]) ∧
      (AddLayer (recording w) clair openvzMirror templateName (s, [])).2.2 =
        match w.NewRequestErr "POST"
          ("http://" ++ clair.Address ++ ":" ++ Itoa clair.Port ++ "/v1/layers") with
        | some _ => []
        | none =>
          [{ Method := "POST",
             URL := "http://" ++ clair.Address ++ ":" ++ Itoa clair.Port ++ "/v1/layers",
             Header := [("Content-Type", "application/json")],
             Body := some body }] := by
  refine ⟨Marshal ⟨templateName, openvzMirror ++ "/" ++ templateName ++ ".tar.gz", ""⟩,
    parseJSON_Marshal _, ?_⟩
  rw [AddLayer_eq, ← AddLayerURL_off clair hoff]
  cases hnew : w.NewRequestErr "POST" (AddLayerURL clair) with
  | some msg => simp only [recording, hnew]
  | none =>
    simp only [recording, hnew]
    generalize w.Do s _ = r
    rcases r with ⟨msg | response, s1⟩
    · rfl
    · by_cases h : response.StatusCode = 201
      · dsimp only
        rw [if_pos h]
        rfl
      · dsimp only
        rw [if_neg h]
        rfl

/-- C8 at the default endpoint, the default mirror and the template
ubuntu-x. -/
theorem AddLayer_request_witness :
    ∃ body : String,
      parseJSON body = some (JSON.object [("ID", .string "ubuntu-x"),
        ("Path", .string "https://download.openvz.org/template/precreated//ubuntu-x.tar.gz"),
        ("ParantID", .string "")]) ∧
      (AddLayer (recording (loggingWorld (always 201 ""))) ⟨"127.0.0.1", 6060, false, "High"⟩
        "https://download.openvz.org/template/precreated/" "ubuntu-x" ([], [])).2.2 =
        [{ Method := "POST", URL := "http://127.0.0.1:6060/v1/layers",
           Header := [("Content-Type", "application/json")], Body := some body }] :=
  AddLayer_request (loggingWorld (always 201 "")) ⟨"127.0.0.1", 6060, false, "High"⟩
    "https://download.openvz.org/template/precreated/" "ubuntu-x" [] rfl

/-- C7 at endpoints with the flag on. `AddLayer` makes no check of the flag:
for the host 127.0.0.1 it builds the target "127.0.0.1:6060/v1/layers"
without a scheme and hands it to `http.NewRequest`, so that the only error
is the refusal of that target by the library; and for the address
"http://127.0.0.1" it sends the register request to the unencrypted target
"http://127.0.0.1:6060/v1/layers" and, on the answer 201, returns no
error. -/
theorem AddLayer_https_flag_unchecked :
    AddLayerURL ⟨"127.0.0.1", 6060, true, "High"⟩ = "127.0.0.1:6060/v1/layers" ∧
    AddLayer (loggingWorld (always 201 "")) ⟨"127.0.0.1", 6060, true, "High"⟩
        "https://download.openvz.org/template/precreated/" "ubuntu-x" [] =
      (some (.newRequest "unsupported URL"), []) ∧
    AddLayer (loggingWorld (always 201 "")) ⟨"http://127.0.0.1", 6060, true, "High"⟩
        "https://download.openvz.org/template/precreated/" "ubuntu-x" [] =
      (none,
        [{ Method := "POST", URL := "http://127.0.0.1:6060/v1/layers",
           Header := [("Content-Type", "application/json")],
           Body := some "\x7b\"ID\":\"ubuntu-x\",\"Path\":\"https://download.openvz.org/template/precreated//ubuntu-x.tar.gz\",\"ParantID\":\"\"\x7d" }]) := by
  decide

/-- C1: with encrypted transport off, for every response of the scanner to
the lookup, `GetLayerVuln` returns no error exactly when the status is 200
and `json.Unmarshal` decodes the body; a status other than 200 gives the
error made by `errors.New` from the body, whose text is the body; a status
200 with a body that does not decode gives the error of `json.Unmarshal`
(the syntax error when the body is not valid JSON), which is not an error
made by `errors.New`; and with every error the vulnerability list returned
is empty. -/
theorem GetLayerVuln_result (w : World σ) (clair : ClairAPI) (templateName : String)
    (s s1 : σ) (response : Response) (hoff : clair.HttpsEnable = false)
    (hget : httpGet w ("http://" ++ clair.Address ++ ":" ++ Itoa clair.Port ++ "/v1/layers/"
      ++ templateName ++ "/vulnerabilities?minimumPriority=" ++ clair.MinimumPriority) s =
        (.ok response, s1)) :
    ((GetLayerVuln w clair templateName s).1.2 = none ↔
      response.StatusCode = 200 ∧ ∃ result, Unmarshal response.Body ⟨[]⟩ = .ok result) ∧
    (response.StatusCode ≠ 200 →
      (GetLayerVuln w clair templateName s).1 = ([], some (.errorString response.Body)) ∧
      (GoError.errorString response.Body).Error = response.Body) ∧
    (response.StatusCode = 200 → ∀ e, Unmarshal response.Body ⟨[]⟩ = .error e →
      (GetLayerVuln w clair templateName s).1 = ([], some (.json e)) ∧
      ∀ text, GoError.json e ≠ .errorString text) ∧
    (response.StatusCode = 200 → parseJSON response.Body = none →
      (GetLayerVuln w clair templateName s).1 = ([], some (.json .SyntaxError))) ∧
    ((GetLayerVuln w clair templateName s).1.2 ≠ none →
      (GetLayerVuln w clair templateName s).1.1 = []) := by
  rw [← GetLayerVulnURL_off clair templateName hoff] at hget
  rw [GetLayerVuln_eq, hget]
  dsimp only
  by_cases h : response.StatusCode = 200
  · rw [if_pos h]
    cases hu : Unmarshal response.Body ⟨[]⟩ with
    | error e =>
      refine ⟨by simp [h], by simp [h], ?_, ?_, by simp⟩
      · intro _ e1 he1
        cases he1
        exact ⟨rfl, fun text hne => by cases hne⟩
      · intro _ hp
        simp only [Unmarshal, hp] at hu
        cases hu
        rfl
    | ok result =>
      refine ⟨by simp [h], by simp [h], ?_, ?_, by simp⟩
      · intro _ e1 he1
        cases he1
      · intro _ hp
        simp only [Unmarshal, hp] at hu
        cases hu
  · rw [if_neg h]
    simp [h, GoError.Error]

/-- C1 at three answers: 200 with a body that decodes, 500 with the body
"boom", and 200 with the body "not json". -/
theorem GetLayerVuln_result_witness :
    (GetLayerVuln (loggingWorld (always 200 "\x7b\"Vulnerabilities\":[]\x7d"))
      ⟨"127.0.0.1", 6060, false, "High"⟩ "ubuntu-x" []).1.2 = none ∧
    (GetLayerVuln (loggingWorld (always 500 "boom"))
      ⟨"127.0.0.1", 6060, false, "High"⟩ "ubuntu-x" []).1 = ([], some (.errorString "boom")) ∧
    (GetLayerVuln (loggingWorld (always 200 "not json"))
      ⟨"127.0.0.1", 6060, false, "High"⟩ "ubuntu-x" []).1 = ([], some (.json .SyntaxError)) :=
  ⟨(GetLayerVuln_result (loggingWorld (always 200 "\x7b\"Vulnerabilities\":[]\x7d"))
      ⟨"127.0.0.1", 6060, false, "High"⟩ "ubuntu-x" [] _ ⟨200, _, none⟩ rfl rfl).1.mpr
      ⟨rfl, ⟨[]⟩, rfl⟩,
   ((GetLayerVuln_result (loggingWorld (always 500 "boom"))
      ⟨"127.0.0.1", 6060, false, "High"⟩ "ubuntu-x" [] _ ⟨500, _, none⟩ rfl rfl).2.1
      (by decide)).1,
   (GetLayerVuln_result (loggingWorld (always 200 "not json"))
      ⟨"127.0.0.1", 6060, false, "High"⟩ "ubuntu-x" [] _ ⟨200, _, none⟩ rfl rfl).2.2.2.1
      rfl rfl⟩

/-- C10: when the scanner answers 200 with a body that is the JSON text of
the object whose member Vulnerabilities is the array of the objects with the
fields ID, Link, Priority and Description of the given records,
`GetLayerVuln` returns exactly those records, in order, and no error; the
compact text `renderResponse records` is such a body for every sequence of
records. -/
theorem GetLayerVuln_decodes_records (w : World σ) (clair : ClairAPI) (templateName : String)
    (s s1 : σ) (records : List VulnerabilityItem) (body : String) (readErr : Option String)
    (hbody : parseJSON body = some (responseJSON records))
    (hget : httpGet w (GetLayerVulnURL clair templateName) s = (.ok ⟨200, body, readErr⟩, s1)) :
    GetLayerVuln w clair templateName s = ((records, none), s1) ∧
    parseJSON (renderResponse records) = some (responseJSON records) := by
  refine ⟨?_, parseJSON_renderResponse records⟩
  rw [GetLayerVuln_eq, hget]
  simp only [if_true, Unmarshal, hbody, decodeResponse_responseJSON]

/-- C10 at the body of the specification: the one record (CVE-1, x, High,
d). -/
theorem GetLayerVuln_decodes_records_witness :
    GetLayerVuln
      (loggingWorld (always 200
        "\x7b\"Vulnerabilities\":[\x7b\"ID\":\"CVE-1\",\"Link\":\"x\",\"Priority\":\"High\",\"Description\":\"d\"\x7d]\x7d"))
      ⟨"127.0.0.1", 6060, false, "High"⟩ "ubuntu-x" [] =
      (([⟨"CVE-1", "x", "High", "d"⟩], none),
        [{ Method := "GET",
           URL := "http://127.0.0.1:6060/v1/layers/ubuntu-x/vulnerabilities?minimumPriority=High",
           Header := [], Body := none }]) :=
  (GetLayerVuln_decodes_records
    (loggingWorld (always 200
      "\x7b\"Vulnerabilities\":[\x7b\"ID\":\"CVE-1\",\"Link\":\"x\",\"Priority\":\"High\",\"Description\":\"d\"\x7d]\x7d"))
    ⟨"127.0.0.1", 6060, false, "High"⟩ "ubuntu-x" [] _
    [⟨"CVE-1", "x", "High", "d"⟩]
    "\x7b\"Vulnerabilities\":[\x7b\"ID\":\"CVE-1\",\"Link\":\"x\",\"Priority\":\"High\",\"Description\":\"d\"\x7d]\x7d"
    none rfl rfl).1

/-! ## The main loop -/

/-- When the mirror answers the listing request with a body that is read to
its end, `main` runs its loop over the clean listing of the body. -/
theorem main_runs_cleanListing (w : World σ) (clair : ClairAPI) (openvzMirror : String)
    (s s1 : σ) (status : Int) (body : String)
    (hget : httpGet w (openvzMirror ++ "/.listing") s = (.ok ⟨status, body, none⟩, s1)) :
    main w clair openvzMirror s =
      (some (mainLoop w clair openvzMirror (cleanListing body) s1).1,
        (mainLoop w clair openvzMirror (cleanListing body) s1).2) := by
  simp only [main, GetRemoteListing, hget, cleanListing]

theorem mainLoop_orchestrated (w : World σ) (clair : ClairAPI) (openvzMirror : String)
    (templateList : List String) :
    ∀ s : σ, Orchestrated w clair openvzMirror templateList s
      (mainLoop w clair openvzMirror templateList s).1
      (mainLoop w clair openvzMirror templateList s).2 := by
  induction templateList with
  | nil => intro s; exact Orchestrated.done s
  | cons template rest ih =>
    intro s
    by_cases hm : supportTemplates.MatchString template = true
    · rw [mainLoop]
      simp only [hm, Bool.not_true, Bool.false_eq_true, if_false]
      rcases hadd : AddLayer w clair openvzMirror template s with ⟨err | err, s1⟩
      · rcases hget : GetLayerVuln w clair template s1 with ⟨⟨vulnList, err2⟩, s2⟩
        simp only [hget]
        exact Orchestrated.lookedUp template rest s s1 s2 vulnList err2 _ _ hm hadd hget (ih s2)
      · dsimp only
        exact Orchestrated.registerFailed template rest s s1 err _ _ hm hadd (ih s1)
    · have hf : supportTemplates.MatchString template = false := by simpa using hm
      rw [mainLoop]
      simp only [hf, Bool.not_false, if_true]
      exact Orchestrated.skipped template rest s _ _ hf (ih s)

theorem orchestrated_unique (w : World σ) (clair : ClairAPI) (openvzMirror : String)
    (templateList : List String) (s : σ) (calls : List Call) (last : σ)
    (h : Orchestrated w clair openvzMirror templateList s calls last) :
    calls = (mainLoop w clair openvzMirror templateList s).1 ∧
      last = (mainLoop w clair openvzMirror templateList s).2 := by
  induction h with
  | done s => exact ⟨rfl, rfl⟩
  | skipped template rest s calls last hreject _ ih =>
    rw [mainLoop]
    simp only [hreject, Bool.not_false, if_true]
    exact ih
  | registerFailed template rest s s1 err calls last haccept hadd _ ih =>
    rw [mainLoop]
    simp only [haccept, Bool.not_true, Bool.false_eq_true, if_false, hadd]
    exact ⟨by rw [ih.1], ih.2⟩
  | lookedUp template rest s s1 s2 vulnList err calls last haccept hadd hget _ ih =>
    rw [mainLoop]
    simp only [haccept, Bool.not_true, Bool.false_eq_true, if_false, hadd, hget]
    exact ⟨by rw [ih.1], ih.2⟩

theorem mainLoop_registered (w : World σ) (clair : ClairAPI) (openvzMirror : String)
    (templateList : List String) :
    ∀ s : σ, (mainLoop w clair openvzMirror templateList s).1.filterMap Call.registered =
      templateList.filter fun t => supportTemplates.MatchString t := by
  induction templateList with
  | nil => intro s; rfl
  | cons template rest ih =>
    intro s
    by_cases hm : supportTemplates.MatchString template = true
    · rw [mainLoop]
      simp only [hm, Bool.not_true, Bool.false_eq_true, if_false, List.filter_cons_of_pos]
      rcases hadd : AddLayer w clair openvzMirror template s with ⟨err | err, s1⟩
      · rcases hget : GetLayerVuln w clair template s1 with ⟨⟨vulnList, err2⟩, s2⟩
        simp only [List.filterMap_cons, Call.registered, ih]
      · simp only [List.filterMap_cons, Call.registered, ih]
    · rw [mainLoop]
      simp only [hm, Bool.not_false, if_true]
      rw [List.filter_cons_of_neg (by simpa using hm)]
      exact ih s

/-- C3: for every listing, every world and every state of it, the run of the
main loop is the run the specification prescribes: a template the filter
rejects gets no call and leaves the world as it is; an accepted template gets
one call of `AddLayer` in the state reached so far, followed at once by one
call of `GetLayerVuln` for the same template, in the state `AddLayer` left,
exactly when that call of `AddLayer` returned no error; the loop goes on
with the later templates whatever the calls returned. The calls and the
final state of the world are the only ones that fit this description, and
the register calls are exactly the accepted templates in listing order (for
["ubuntu-x", "windows-y", "debian-z"]: ubuntu-x and debian-z). -/
theorem mainLoop_calls (w : World σ) (clair : ClairAPI) (openvzMirror : String)
    (templateList : List String) (s : σ) :
    Orchestrated w clair openvzMirror templateList s
      (mainLoop w clair openvzMirror templateList s).1
      (mainLoop w clair openvzMirror templateList s).2 ∧
    (∀ calls last, Orchestrated w clair openvzMirror templateList s calls last →
      calls = (mainLoop w clair openvzMirror templateList s).1 ∧
      last = (mainLoop w clair openvzMirror templateList s).2) ∧
    (mainLoop w clair openvzMirror templateList s).1.filterMap Call.registered =
      (templateList.filter fun t => supportTemplates.MatchString t) ∧
    (mainLoop w clair openvzMirror ["ubuntu-x", "windows-y", "debian-z"] s).1.filterMap
      Call.registered = ["ubuntu-x", "debian-z"] := by
  refine ⟨mainLoop_orchestrated w clair openvzMirror templateList s,
    fun calls last h => orchestrated_unique w clair openvzMirror templateList s calls last h,
    mainLoop_registered w clair openvzMirror templateList s, ?_⟩
  rw [mainLoop_registered]
  decide

/-- C3 at the listing ["ubuntu-x", "windows-y", "debian-z"], in two worlds
that log the requests sent. In the first the register request for ubuntu-x is
refused with 409: no lookup follows it, nothing is sent for windows-y, and
debian-z is registered and looked up. In the second every lookup fails with
500: each of the two accepted templates is still registered and looked up. -/
theorem mainLoop_calls_witness :
    (mainLoop (loggingWorld (firstRefused "\x7b\"Vulnerabilities\":[]\x7d"))
        ⟨"127.0.0.1", 6060, false, "High"⟩ "https://download.openvz.org/template/precreated/"
        ["ubuntu-x", "windows-y", "debian-z"] []).1 =
      [Call.AddLayer "ubuntu-x" (some (.errorString "conflict")),
       Call.AddLayer "debian-z" none, Call.GetLayerVuln "debian-z" [] none] ∧
    ((mainLoop (loggingWorld (firstRefused "\x7b\"Vulnerabilities\":[]\x7d"))
        ⟨"127.0.0.1", 6060, false, "High"⟩ "https://download.openvz.org/template/precreated/"
        ["ubuntu-x", "windows-y", "debian-z"] []).2.map fun r => (r.Method, r.URL)) =
      [("POST", "http://127.0.0.1:6060/v1/layers"),
       ("POST", "http://127.0.0.1:6060/v1/layers"),
       ("GET", "http://127.0.0.1:6060/v1/layers/debian-z/vulnerabilities?minimumPriority=High")] ∧
    (mainLoop (loggingWorld lookupsFail)
        ⟨"127.0.0.1", 6060, false, "High"⟩ "https://download.openvz.org/template/precreated/"
        ["ubuntu-x", "windows-y", "debian-z"] []).1 =
      [Call.AddLayer "ubuntu-x" none,
       Call.GetLayerVuln "ubuntu-x" [] (some (.errorString "boom")),
       Call.AddLayer "debian-z" none,
       Call.GetLayerVuln "debian-z" [] (some (.errorString "boom"))] ∧
    Orchestrated (loggingWorld lookupsFail) ⟨"127.0.0.1", 6060, false, "High"⟩
      "https://download.openvz.org/template/precreated/" ["ubuntu-x", "windows-y", "debian-z"] []
      [Call.AddLayer "ubuntu-x" none,
       Call.GetLayerVuln "ubuntu-x" [] (some (.errorString "boom")),
       Call.AddLayer "debian-z" none,
       Call.GetLayerVuln "debian-z" [] (some (.errorString "boom"))]
      (mainLoop (loggingWorld lookupsFail)
        ⟨"127.0.0.1", 6060, false, "High"⟩ "https://download.openvz.org/template/precreated/"
        ["ubuntu-x", "windows-y", "debian-z"] []).2 :=
  ⟨by decide, by decide, by decide,
    (mainLoop_calls (loggingWorld lookupsFail) ⟨"127.0.0.1", 6060, false, "High"⟩
      "https://download.openvz.org/template/precreated/" ["ubuntu-x", "windows-y", "debian-z"]
      []).1⟩

/-! ## The template filter -/

theorem matchRune_family (r0 : Char) (h : r0 ∈ "ubuntudebiancentos".data) (r : Char) :
    matchRune true r0 r = equalFoldRune r0 r := by
  have key : ∀ a b : Char, SimpleFold a = b → SimpleFold b = a → a ≠ b →
      matchRune true a r = equalFoldRune a r := by
    intro a b hab hba hne
    simp only [matchRune, foldLoop, equalFoldRune, hab, hba, Bool.true_and]
    by_cases h1 : r = a <;> by_cases h2 : r = b <;> simp [h1, h2, hne, Ne.symm hne]
  have key3 : ∀ a b c : Char, SimpleFold a = b → SimpleFold b = c → SimpleFold c = a →
      a ≠ b → a ≠ c → matchRune true a r = equalFoldRune a r := by
    intro a b c hab hbc hca hne1 hne2
    simp only [matchRune, foldLoop, equalFoldRune, hab, hbc, hca, Bool.true_and]
    by_cases h1 : r = a
    · simp [h1]
    · by_cases h2 : r = b
      · simp [h2, Ne.symm hne1]
      · by_cases h3 : r = c
        · simp [h3, Ne.symm hne2, Ne.symm hne1]
        · have e1 : (r == a) = false := by simpa using h1
          have e2 : (r == b) = false := by simpa using h2
          have e3 : (r == c) = false := by simpa using h3
          simp [h1, h2, h3, e1, e2, e3, Ne.symm hne1, Ne.symm hne2]
  simp only [String.data, List.mem_cons, List.mem_singleton, List.not_mem_nil, or_false] at h
  rcases h with h | h | h | h | h | h | h | h | h | h | h | h | h | h | h | h | h | h <;> subst h
  all_goals first
    | exact key _ _ rfl rfl (by decide)
    | exact key3 _ _ _ rfl rfl rfl (by decide) (by decide)

theorem matchLiteral_iff (runes : List Char)
    (hr : ∀ r0 ∈ runes, ∀ r, matchRune true r0 r = equalFoldRune r0 r) :
    ∀ input rest : List Char, matchLiteral true runes input = some rest ↔
      ∃ middle, input = middle ++ rest ∧ EqualFold runes middle = true := by
  induction runes with
  | nil =>
    intro input rest
    simp only [matchLiteral, Option.some.injEq]
    constructor
    · intro h
      exact ⟨[], by simp [h], rfl⟩
    · rintro ⟨middle, hin, heq⟩
      cases middle with
      | nil => simpa using hin
      | cons c cs => simp [EqualFold] at heq
  | cons r0 runes ih =>
    intro input rest
    have ih := ih fun a ha => hr a (List.mem_cons_of_mem _ ha)
    cases input with
    | nil =>
      simp only [matchLiteral]
      constructor
      · intro h
        cases h
      · rintro ⟨middle, hin, heq⟩
        cases middle with
        | nil => simp [EqualFold] at heq
        | cons c cs => simp at hin
    | cons r input =>
      simp only [matchLiteral, hr r0 (List.mem_cons_self _ _)]
      by_cases h : equalFoldRune r0 r = true
      · simp only [h, if_true, ih]
        constructor
        · rintro ⟨middle, hin, heq⟩
          exact ⟨r :: middle, by simp [hin], by simp [EqualFold, h, heq]⟩
        · rintro ⟨middle, hin, heq⟩
          cases middle with
          | nil => simp [EqualFold] at heq
          | cons c cs =>
            simp only [List.cons_append, List.cons.injEq] at hin
            simp only [EqualFold, Bool.and_eq_true] at heq
            exact ⟨cs, hin.2, heq.2⟩
      · simp only [h, Bool.false_eq_true, if_false]
        constructor
        · intro h0
          cases h0
        · rintro ⟨middle, hin, heq⟩
          cases middle with
          | nil => simp [EqualFold] at heq
          | cons c cs =>
            simp only [List.cons_append, List.cons.injEq] at hin
            simp only [EqualFold, Bool.and_eq_true] at heq
            rw [← hin.1] at heq
            exact absurd heq.1 h

theorem matchSomewhere_iff (re : Regexp) (cs : List Char) :
    re.matchSomewhere cs = true ↔
      ∃ before rest, cs = before ++ rest ∧ re.matchAtStart rest ≠ [] := by
  induction cs with
  | nil =>
    simp only [Regexp.matchSomewhere, Bool.not_eq_true', List.isEmpty_eq_false]
    constructor
    · intro h
      exact ⟨[], [], rfl, h⟩
    · rintro ⟨before, rest, h, hne⟩
      have : rest = [] := by
        have := congrArg List.length h
        simp at this
        exact List.length_eq_zero.mp (by omega)
      rw [this] at hne
      exact hne
  | cons c cs ih =>
    simp only [Regexp.matchSomewhere, Bool.or_eq_true, Bool.not_eq_true',
      List.isEmpty_eq_false, ih]
    constructor
    · rintro (h | ⟨before, rest, h, hne⟩)
      · exact ⟨[], c :: cs, rfl, h⟩
      · exact ⟨c :: before, rest, by simp [h], hne⟩
    · rintro ⟨before, rest, h, hne⟩
      cases before with
      | nil =>
        simp only [List.nil_append] at h
        rw [← h] at hne
        exact Or.inl hne
      | cons b before =>
        simp only [List.cons_append, List.cons.injEq] at h
        exact Or.inr ⟨before, rest, h.2, hne⟩

theorem literal_matchAtStart (family : String)
    (hr : ∀ r0 ∈ family.data, ∀ r, matchRune true r0 r = equalFoldRune r0 r)
    (input : List Char) :
    (Regexp.OpLiteral family.data true).matchAtStart input ≠ [] ↔
      ∃ middle after, input = middle ++ after ∧ EqualFold family.data middle = true := by
  simp only [Regexp.matchAtStart]
  cases hm : matchLiteral true family.data input with
  | none =>
    simp only [Option.toList, ne_eq, not_true_eq_false, false_iff]
    rintro ⟨middle, after, hin, heq⟩
    have := (matchLiteral_iff family.data hr input after).mpr ⟨middle, hin, heq⟩
    rw [hm] at this
    cases this
  | some rest =>
    simp only [Option.toList, ne_eq, List.cons_ne_nil, not_false_eq_true, true_iff]
    obtain ⟨middle, hin, heq⟩ := (matchLiteral_iff family.data hr input rest).mp hm
    exact ⟨middle, rest, hin, heq⟩

/-- C4: the filter of `main` accepts a name exactly when the name contains,
anywhere and up to case, one of ubuntu, debian and centos (the case orbit of
s also holds the long s U+017F, as in the package `regexp`); it accepts
"Ubuntu-20.04" and "MyDEBIANbox" and rejects "alpine-3.15". -/
theorem supportTemplates_accepts (name : String) :
    (supportTemplates.MatchString name = true ↔
      ContainsFold name "ubuntu" ∨ ContainsFold name "debian" ∨ ContainsFold name "centos") ∧
    supportTemplates.MatchString "Ubuntu-20.04" = true ∧
    supportTemplates.MatchString "alpine-3.15" = false ∧
    supportTemplates.MatchString "MyDEBIANbox" = true := by
  refine ⟨?_, by decide, by decide, by decide⟩
  have su : ∀ r0 ∈ "ubuntu".data, r0 ∈ "ubuntudebiancentos".data := by decide
  have sd : ∀ r0 ∈ "debian".data, r0 ∈ "ubuntudebiancentos".data := by decide
  have sc : ∀ r0 ∈ "centos".data, r0 ∈ "ubuntudebiancentos".data := by decide
  have hu := literal_matchAtStart "ubuntu" fun r0 h => matchRune_family r0 (su r0 h)
  have hd := literal_matchAtStart "debian" fun r0 h => matchRune_family r0 (sd r0 h)
  have hc := literal_matchAtStart "centos" fun r0 h => matchRune_family r0 (sc r0 h)
  have hsplit : ∀ input, supportTemplates.matchAtStart input ≠ [] ↔
      (Regexp.OpLiteral "ubuntu".data true).matchAtStart input ≠ [] ∨
      (Regexp.OpLiteral "debian".data true).matchAtStart input ≠ [] ∨
      (Regexp.OpLiteral "centos".data true).matchAtStart input ≠ [] := by
    intro input
    simp only [supportTemplates, Regexp.matchAtStart, ne_eq, List.append_eq_nil, not_and_or]
  simp only [Regexp.MatchString, matchSomewhere_iff, hsplit, hu, hd, hc, ContainsFold]
  constructor
  · rintro ⟨before, rest, hn, h | h | h⟩
    · obtain ⟨middle, after, hr, he⟩ := h
      exact Or.inl ⟨before, middle, after, by simp [hn, hr], he⟩
    · obtain ⟨middle, after, hr, he⟩ := h
      exact Or.inr (Or.inl ⟨before, middle, after, by simp [hn, hr], he⟩)
    · obtain ⟨middle, after, hr, he⟩ := h
      exact Or.inr (Or.inr ⟨before, middle, after, by simp [hn, hr], he⟩)
  · rintro (⟨before, middle, after, hn, he⟩ | ⟨before, middle, after, hn, he⟩ |
      ⟨before, middle, after, hn, he⟩)
    · exact ⟨before, middle ++ after, by simp [hn], Or.inl ⟨middle, after, rfl, he⟩⟩
    · exact ⟨before, middle ++ after, by simp [hn], Or.inr (Or.inl ⟨middle, after, rfl, he⟩)⟩
    · exact ⟨before, middle ++ after, by simp [hn], Or.inr (Or.inr ⟨middle, after, rfl, he⟩)⟩

end ClairCheck
